import Mathlib

/-!
Verification of the classification and rename-detection engine of the
directory-comparison application (`src/app.py`).

The engine is shallowly embedded below.  Texts, file names and paths are
modelled as `List Char` (Python `str` restricted to the ASCII behaviour of
`lower`/whitespace that the engine relies on), byte sequences as `List ℕ`,
similarity scores as `ℚ` (exact rational arithmetic in place of Python
floats), and the filesystem / external collaborators (MD5 digests, file
sizes, text extraction, `os.path.normpath`, `_extract_filename`) as explicit
parameters, since the Python code obtains them from the environment.
-/

namespace CompareDiff

/-! ## Basic character/text utilities (models of the Python `str` operations
used by `app.py`) -/

/-- Model of the ASCII whitespace set recognised by Python `str.split()` /
`str.strip()` (space, tab, newline, carriage return, vertical tab, form
feed). -/
def isSpaceChar (c : Char) : Bool :=
  c = ' ' || c = '\t' || c = '\n' || c = '\x0d' || c = '\x0b' || c = '\x0c'

/-- ASCII model of Python `str.lower` applied characterwise. -/
def asciiLower (c : Char) : Char :=
  if 'A' ≤ c ∧ c ≤ 'Z' then Char.ofNat (c.toNat + 32) else c

/-- Model of Python `s.strip()`: remove leading and trailing whitespace. -/
def stripChars (t : List Char) : List Char :=
  ((t.dropWhile isSpaceChar).reverse.dropWhile isSpaceChar).reverse

/-- Normalisation used by `_calculate_text_similarity`
(`"".join(text.lower().split())`): lowercase, then drop all whitespace. -/
def normalizeText (t : List Char) : List Char :=
  (t.map asciiLower).filter (fun c => !isSpaceChar c)

/-- Model of Python `str.splitlines` for texts whose line terminators are
the newline character (the only terminator produced by the app's text
extraction, which joins fragments with `"\n"`): split on newlines, with a
trailing newline not producing a final empty line, and the empty text
having no lines. -/
def splitlines (t : List Char) : List (List Char) :=
  if t = [] then []
  else if t.getLast? = some '\n' then (t.splitOn '\n').dropLast
  else t.splitOn '\n'

/-! ## Levenshtein distance (`levenshtein_distance` inside
`FileComparator._calculate_text_similarity`), embedded with exactly the
dynamic-programming row structure of the Python code. -/

/-- One execution of the inner loop body of the Python DP: given the first
character `c1`, the remaining characters of `s2`, the suffix of
`previous_row` starting at the current column, and the last value appended
to `current_row`, produce the rest of `current_row`. -/
def levRowAux (c1 : Char) : List Char → List ℕ → ℕ → List ℕ
  | [], _, _ => []
  | c2 :: cs, prev, cur =>
    let p0 := prev.headD 0
    let p1 := prev.tail.headD 0
    let v := min (p1 + 1) (min (cur + 1) (p0 + (if c1 = c2 then 0 else 1)))
    v :: levRowAux c1 cs prev.tail v

/-- One full row of the DP: `current_row = [i + 1]` followed by the inner
loop over `s2`. -/
def levRowFull (c1 : Char) (s2 : List Char) (prev : List ℕ) (i : ℕ) : List ℕ :=
  (i + 1) :: levRowAux c1 s2 prev (i + 1)

/-- The outer loop of the Python DP over the characters of `s1`, carrying
the enumeration index and `previous_row`. -/
def levLoop (s2 : List Char) : List Char → ℕ → List ℕ → List ℕ
  | [], _, prev => prev
  | c1 :: cs, i, prev => levLoop s2 cs (i + 1) (levRowFull c1 s2 prev i)

/-- Body of `levenshtein_distance` after the argument swap: the
`len(s2) == 0` base case, otherwise the DP returning `previous_row[-1]`. -/
def levCompute (s1 s2 : List Char) : ℕ :=
  if s2.length = 0 then s1.length
  else (levLoop s2 s1 0 (List.range (s2.length + 1))).getLastD 0

/-- `levenshtein_distance(s1, s2)`: swap so that `s1` is the longer
string, then run the DP. -/
def levenshtein_distance (s1 s2 : List Char) : ℕ :=
  if s1.length < s2.length then levCompute s2 s1 else levCompute s1 s2

/-! ## `FileComparator._calculate_text_similarity` -/

/-- `_calculate_text_similarity(text1, text2)`: `1.0` if both texts are
empty, `0.0` if exactly one is, otherwise the normalized edit-distance
ratio, `1.0` when both normalizations are empty, and clamped below by
`max(0.0, ·)`. -/
def calculate_text_similarity (text1 text2 : List Char) : ℚ :=
  if text1 = [] ∧ text2 = [] then 1
  else if text1 = [] ∨ text2 = [] then 0
  else
    let n1 := normalizeText text1
    let n2 := normalizeText text2
    let maxLen := max n1.length n2.length
    if maxLen = 0 then 1
    else max 0 (1 - (levenshtein_distance n1 n2 : ℚ) / (maxLen : ℚ))

/-! ## `FileComparator._diff_text_lines` -/

/-- `_diff_text_lines(text1, text2)` on already-split line lists: for each
index up to the larger length, compare positionally (padding the shorter
text with the empty line) and collect the 1-based differing positions. -/
def diff_line_lists (lines1 lines2 : List (List Char)) :
    List (ℕ × List Char × List Char) :=
  (List.range (max lines1.length lines2.length)).filterMap (fun i =>
    if lines1.getD i [] ≠ lines2.getD i [] then
      some (i + 1, lines1.getD i [], lines2.getD i []) else none)

/-- `_diff_text_lines(text1, text2)`: split both texts into lines, then
compare positionally. -/
def diff_text_lines (text1 text2 : List Char) : List (ℕ × List Char × List Char) :=
  diff_line_lists (splitlines text1) (splitlines text2)

/-! ## UTF-8 bytes (model of Python `str.encode("utf-8")` and
`bytes.decode("utf-8", errors="replace")`, used by
`GitFileComparator._decode_git_path`) -/

/-- Standard UTF-8 encoding of one character as its byte values. -/
def utf8EncodeChar (c : Char) : List ℕ :=
  let n := c.toNat
  if n < 0x80 then [n]
  else if n < 0x800 then [0xC0 + n / 64, 0x80 + n % 64]
  else if n < 0x10000 then [0xE0 + n / 4096, 0x80 + n / 64 % 64, 0x80 + n % 64]
  else [0xF0 + n / 262144, 0x80 + n / 4096 % 64, 0x80 + n / 64 % 64, 0x80 + n % 64]

/-- The Unicode replacement character emitted by `errors="replace"`. -/
def replChar : Char := Char.ofNat 0xFFFD

/-- UTF-8 continuation byte test. -/
def isContByte (b : ℕ) : Bool := 0x80 ≤ b && b ≤ 0xBF

/-- Admissible second byte of a three-byte sequence for lead byte `b`
(excludes overlong encodings and surrogates). -/
def cont3Head (b b2 : ℕ) : Bool :=
  if b = 0xE0 then 0xA0 ≤ b2 && b2 ≤ 0xBF
  else if b = 0xED then 0x80 ≤ b2 && b2 ≤ 0x9F
  else isContByte b2

/-- Admissible second byte of a four-byte sequence for lead byte `b`. -/
def cont4Head (b b2 : ℕ) : Bool :=
  if b = 0xF0 then 0x90 ≤ b2 && b2 ≤ 0xBF
  else if b = 0xF4 then 0x80 ≤ b2 && b2 ≤ 0x8F
  else isContByte b2

/-- UTF-8 decoding with replacement: valid sequences decode to their scalar
value, an invalid or truncated sequence yields one replacement character for
its lead byte (an approximation of CPython's maximal-subpart policy that
agrees with it on valid input, which is the only input the theorems below
evaluate it on). -/
def utf8DecodeReplace : List ℕ → List Char
  | [] => []
  | b :: bs =>
    if b < 0x80 then Char.ofNat b :: utf8DecodeReplace bs
    else if 0xC2 ≤ b && b ≤ 0xDF then
      match bs with
      | b2 :: rest =>
        if isContByte b2 then
          Char.ofNat ((b - 0xC0) * 64 + (b2 - 0x80)) :: utf8DecodeReplace rest
        else replChar :: utf8DecodeReplace (b2 :: rest)
      | [] => [replChar]
    else if 0xE0 ≤ b && b ≤ 0xEF then
      match bs with
      | b2 :: b3 :: rest =>
        if cont3Head b b2 && isContByte b3 then
          Char.ofNat ((b - 0xE0) * 4096 + (b2 - 0x80) * 64 + (b3 - 0x80)) ::
            utf8DecodeReplace rest
        else replChar :: utf8DecodeReplace (b2 :: b3 :: rest)
      | bs' => replChar :: utf8DecodeReplace bs'
    else if 0xF0 ≤ b && b ≤ 0xF4 then
      match bs with
      | b2 :: b3 :: b4 :: rest =>
        if cont4Head b b2 && isContByte b3 && isContByte b4 then
          Char.ofNat ((b - 0xF0) * 262144 + (b2 - 0x80) * 4096 + (b3 - 0x80) * 64 + (b4 - 0x80)) ::
            utf8DecodeReplace rest
        else replChar :: utf8DecodeReplace (b2 :: b3 :: b4 :: rest)
      | bs' => replChar :: utf8DecodeReplace bs'
    else replChar :: utf8DecodeReplace bs

/-! ## `GitFileComparator._decode_git_path` -/

/-- ASCII digit test (model of the regex class `\d` on the paths emitted by
the external tool). -/
def isAsciiDigit (c : Char) : Bool := '0' ≤ c && c ≤ '9'

/-- A segment of a git-quoted path: either a literal character or a
backslash escape of exactly three digits, as matched left-to-right and
non-overlappingly by the pattern backslash-digit-digit-digit. -/
inductive GitSeg where
  | lit : Char → GitSeg
  | esc : ℕ → ℕ → ℕ → GitSeg
deriving DecidableEq

/-- Left-to-right, non-overlapping scan for three-digit backslash escapes,
keeping all remaining characters as literals (model of `re.finditer` with
the pattern backslash-digit-digit-digit plus the surrounding literal-span
bookkeeping of `_decode_git_path`). -/
def scanEscapes : List Char → List GitSeg
  | '\\' :: d1 :: d2 :: d3 :: rest =>
    if isAsciiDigit d1 && isAsciiDigit d2 && isAsciiDigit d3 then
      GitSeg.esc (d1.toNat - 48) (d2.toNat - 48) (d3.toNat - 48) :: scanEscapes rest
    else GitSeg.lit '\\' :: scanEscapes (d1 :: d2 :: d3 :: rest)
  | c :: rest => GitSeg.lit c :: scanEscapes rest
  | [] => []

/-- An escape is malformed when `int(octal_str, 8)` or `bytes([value])`
raises in the Python code: a digit that is not an octal digit, or a value
above `255`. -/
def segMalformed : GitSeg → Bool
  | .lit _ => false
  | .esc a b c => 8 ≤ a || 8 ≤ b || 8 ≤ c || decide (255 < 64 * a + 8 * b + c)

/-- The bytes contributed by one segment: literal spans are UTF-8 encoded,
escapes contribute their single byte value. -/
def segBytes : GitSeg → List ℕ
  | .lit c => utf8EncodeChar c
  | .esc a b c => [64 * a + 8 * b + c]

/-- Model of Python `path.strip('"')`: remove all leading and trailing
double quotes. -/
def stripQuoteChars (t : List Char) : List Char :=
  ((t.dropWhile (· == '"')).reverse.dropWhile (· == '"')).reverse

/-- `_decode_git_path(path)`: strip quotes; if any escape is malformed the
`except` clause returns the (quote-stripped) path unchanged; if the path is
empty there are no byte parts and it is returned unchanged; otherwise the
literal spans and escape bytes are concatenated and decoded as UTF-8 with
replacement. -/
def decode_git_path (rawPath : List Char) : List Char :=
  let path := stripQuoteChars rawPath
  let segs := scanEscapes path
  if segs.any segMalformed then path
  else if path = [] then path
  else utf8DecodeReplace (segs.map segBytes).flatten

/-! ## `GitFileComparator.detect_moved_and_modified_files_no_index`:
parsing of the `--name-status` output.  The external process invocation,
exit-code check and output-encoding detection surround this parsing in the
Python code and are environmental; the parser below receives the decoded
standard output text.  `os.path.normpath` (whose failure triggers the
`continue` branch) and `_extract_filename` (which depends on the process
working directory through `os.path.abspath`) are taken as parameters. -/

/-- Model of `os.path.splitext(p)[1]`: the final dot-suffix of the last
path component, empty when the component has no dot or only leading dots
before the final dot. -/
def splitextExt (p : List Char) : List Char :=
  let base := (p.reverse.takeWhile (· != '/')).reverse
  let afterDotRev := base.reverse.takeWhile (· != '.')
  if afterDotRev.length = base.length then []
  else
    let pre := base.take (base.length - afterDotRev.length - 1)
    if pre.any (· != '.') then '.' :: afterDotRev.reverse else []

/-- Model of `os.path.splitext(p)[0]`: the name with `splitextExt`
removed. -/
def splitextStem (p : List Char) : List Char :=
  p.take (p.length - (splitextExt p).length)

/-- The supported extension set of `FileComparator.__init__`. -/
def supported_extensions : List (List Char) :=
  [".doc".toList, ".docx".toList, ".ppt".toList, ".pptx".toList, ".xlsx".toList, ".pdf".toList]

/-- The marker substring of the special case at line 520 of `app.py`. -/
def markerChars : List Char := "内容・ファイル名差分".toList

/-- Model of Python `str.isdigit` restricted to ASCII digits. -/
def allAsciiDigits (l : List Char) : Bool := !l.isEmpty && l.all isAsciiDigit

/-- Value of a decimal digit string. -/
def digitsVal (l : List Char) : ℕ := l.foldl (fun acc c => 10 * acc + (c.toNat - 48)) 0

/-- The similarity attached to a rename status: `int(status[1:])` when
`status[1:]` is a non-empty digit string, otherwise the default `100`. -/
def statusSimilarity (status : List Char) : ℕ :=
  if 1 < status.length ∧ allAsciiDigits (status.drop 1) = true then digitsVal (status.drop 1)
  else 100

/-- The invalid-filename test of lines 493-500 of `app.py`. -/
def invalidExtractedName (n : List Char) : Bool :=
  n.isEmpty || decide (255 < n.length) || n == ['.'] || n == ['.', '.']

/-- A rename entry parsed from one output line (the dictionary appended to
`moved_and_modified`; the constant `type` field and the debug strings are
presentation and are not modelled). -/
structure RenameEntry where
  old_name : List Char
  new_name : List Char
  old_path : List Char
  new_path : List Char
  similarity : ℕ
deriving DecidableEq

/-- Processing of a single output line of the external tool (the loop body
of `detect_moved_and_modified_files_no_index`): tab-split; require at least
three fields and an `R` status; decode and normalize both paths (a
normalization failure skips the entry); extract the two names; skip invalid
names, unsupported extensions, and entries that neither have similarity
below `100` nor carry the marker substring in both names. -/
def processGitLine (norm : List Char → Option (List Char))
    (extract1 extract2 : List Char → List Char) (line : List Char) : Option RenameEntry :=
  let parts := line.splitOn '\t'
  if parts.length < 3 then none
  else
    let status := stripChars (parts.getD 0 [])
    if status.take 1 = ['R'] then
      match norm (decode_git_path (stripChars (parts.getD 1 []))),
            norm (decode_git_path (stripChars (parts.getD 2 []))) with
      | some old_path, some new_path =>
        let old_name := extract1 old_path
        let new_name := extract2 new_path
        if invalidExtractedName old_name = true ∨ invalidExtractedName new_name = true then none
        else if (splitextExt old_name).map asciiLower ∈ supported_extensions ∧
            (splitextExt new_name).map asciiLower ∈ supported_extensions then
          if statusSimilarity status < 100 ∨
              (markerChars <:+: old_name ∧ markerChars <:+: new_name) then
            some ⟨old_name, new_name, old_path, new_path, statusSimilarity status⟩
          else none
        else none
      | _, _ => none
    else none

/-- The line filter of `detect_moved_and_modified_files_no_index`: strip the
output, split it into lines, drop blank lines and `warning:` lines. -/
def git_output_lines (stdout : List Char) : List (List Char) :=
  ((stripChars stdout).splitOn '\n').filter
    (fun l => decide (stripChars l ≠ [] ∧ (stripChars l).take 8 ≠ "warning:".toList))

/-- Line-by-line parsing: each kept line contributes at most one entry. -/
def detect_lines (norm : List Char → Option (List Char))
    (extract1 extract2 : List Char → List Char) (lines : List (List Char)) : List RenameEntry :=
  lines.filterMap (processGitLine norm extract1 extract2)

/-- `detect_moved_and_modified_files_no_index` on the decoded output text of
the external tool. -/
def detect_moved_and_modified_files_no_index (norm : List Char → Option (List Char))
    (extract1 extract2 : List Char → List Char) (stdout : List Char) : List RenameEntry :=
  detect_lines norm extract1 extract2 (git_output_lines stdout)

/-- Modelled from the spec: the "normalized edit-ratio of the two base
filenames (extension stripped)" of §4.6, the quantity the spec says is
compared against the `0.8` acceptance threshold.  No such computation
exists anywhere in `src/app.py`; it is modelled here, with the app's own
similarity scorer applied to the extension-stripped names, only so that the
claim can be stated. -/
def basename_similarity (n1 n2 : List Char) : ℚ :=
  calculate_text_similarity (splitextStem n1) (splitextStem n2)

/-! ## The classification engine (`FileComparator.compare_directories`,
`_detect_renamed_files`) and strategy B orchestration
(`GitFileComparator.compare_directories_with_git_no_index`).

Directory trees are modelled as the association lists produced by
`get_files_in_directory` (relative path to absolute path, with the
distinct-key property of a Python dict as a hypothesis where needed; set
iteration order is modelled as list order).  The filesystem is a parameter
structure: `digest p` is the MD5 hex digest of a readable file and `none`
when reading raises, `size p` is `os.path.getsize` (`none` when it raises),
and `textOf` is `extract_text_from_file` (total: it catches all its errors
and returns the empty text). -/

/-- The environment the comparator reads. -/
structure FileSystem where
  digest : List Char → Option (List Char)
  size : List Char → Option ℕ
  textOf : List Char → List Char

/-- `calculate_file_hash(file_path)`: the digest of a readable file, and the
empty-string sentinel when reading raises. -/
def calculate_file_hash (fs : FileSystem) (p : List Char) : List Char :=
  (fs.digest p).getD []

/-- Python dict lookup on the association-list model. -/
def dictGet (m : List (List Char × List Char)) (k : List Char) : Option (List Char) :=
  (m.find? (fun kv => kv.1 == k)).map (·.2)

/-- Python dict key-membership test on the association-list model. -/
def hasKey (m : List (List Char × List Char)) (k : List Char) : Bool :=
  m.any (fun kv => kv.1 == k)

/-- Model of `pathlib.Path(p).suffix`: the final dot-suffix of the last
component when the dot is neither leading nor trailing. -/
def pathSuffix (p : List Char) : List Char :=
  let base := (p.reverse.takeWhile (· != '/')).reverse
  let afterDotRev := base.reverse.takeWhile (· != '.')
  if afterDotRev.length = base.length then []
  else
    let i := base.length - afterDotRev.length - 1
    if 0 < i ∧ i < base.length - 1 then base.drop i else []

/-- An entry of the `added` / `deleted` result lists (`name` and `path`;
the constant `type` tag is presentation and is not modelled). -/
structure FileRef where
  name : List Char
  path : List Char
deriving DecidableEq

/-- An entry of the `modified` result list (the `diff_summary` display
strings are presentation and are not modelled). -/
structure ModifiedEntry where
  name : List Char
  path1 : List Char
  path2 : List Char
  text_similarity : ℚ
  diff_lines : List (ℕ × List Char × List Char)
deriving DecidableEq

/-- An entry of the `unchanged` result list. -/
structure UnchangedEntry where
  name : List Char
  path1 : List Char
  path2 : List Char
deriving DecidableEq

/-- An entry of the `renamed` result list produced by strategy A. -/
structure RenamedPair where
  old_name : List Char
  new_name : List Char
  old_path : List Char
  new_path : List Char
deriving DecidableEq

/-- An entry of the `renamed_and_modified` result list: a parsed strategy-B
entry enriched with diff lines and a text-similarity score. -/
structure RMEntry where
  old_name : List Char
  new_name : List Char
  old_path : List Char
  new_path : List Char
  similarity : ℕ
  diff_lines : List (ℕ × List Char × List Char)
  text_similarity : ℚ
deriving DecidableEq

/-- The result dictionary of `compare_directories` /
`compare_directories_with_git_no_index` (diagnostic metadata such as
`git_info` is not modelled). -/
structure CompareResult where
  added : List FileRef
  deleted : List FileRef
  modified : List ModifiedEntry
  renamed : List RenamedPair
  unchanged : List UnchangedEntry
  renamed_and_modified : List RMEntry
deriving DecidableEq

/-- The `modified` entry built for a common path whose hashes differ:
diff lines and text similarity over the extracted texts (the surrounding
`try` cannot fire in the model since text extraction is total). -/
def mkModifiedEntry (fs : FileSystem) (n p1 p2 : List Char) : ModifiedEntry :=
  { name := n, path1 := p1, path2 := p2,
    text_similarity := calculate_text_similarity (fs.textOf p1) (fs.textOf p2),
    diff_lines := diff_text_lines (fs.textOf p1) (fs.textOf p2) }

/-- The per-file record collected by `_detect_renamed_files` before
matching (`file`, `size`, `hash`, `ext`). -/
structure FileInfo where
  file : FileRef
  size : ℕ
  hash : List Char
  ext : List Char
deriving DecidableEq

/-- The info-collection loops of `_detect_renamed_files`: skip a file whose
`os.path.getsize` raises, and skip a file whose hash is the empty-string
sentinel (`if file_hash:`). -/
def buildFileInfo (fs : FileSystem) (l : List FileRef) : List FileInfo :=
  l.filterMap (fun f =>
    match fs.size f.path with
    | none => none
    | some sz =>
      if calculate_file_hash fs f.path ≠ [] then
        some ⟨f, sz, calculate_file_hash fs f.path, (pathSuffix f.path).map asciiLower⟩
      else none)

/-- The inner matching loop of `_detect_renamed_files`: scan the added-file
records in order and return the first one that is not already consumed and
whose `(hash, size, ext)` triple equals that of the deleted record. -/
def findFirstMatch (d : FileInfo) : List FileInfo → List FileRef → Option FileInfo
  | [], _ => none
  | a :: rest, remA =>
    if a.file ∈ remA then findFirstMatch d rest remA
    else if d.hash = a.hash ∧ d.size = a.size ∧ d.ext = a.ext then some a
    else findFirstMatch d rest remA

/-- The rename pair recorded for a matched deleted/added record pair. -/
def mkRenamedPair (d a : FileInfo) : RenamedPair :=
  ⟨d.file.name, a.file.name, d.file.path, a.file.path⟩

/-- The added-side file reference stored in a rename pair. -/
def pairNewRef (pr : RenamedPair) : FileRef := ⟨pr.new_name, pr.new_path⟩

/-- The deleted-side file reference stored in a rename pair. -/
def pairOldRef (pr : RenamedPair) : FileRef := ⟨pr.old_name, pr.old_path⟩

/-- The outer matching loop of `_detect_renamed_files`: iterate the deleted
records in order, skip already-consumed ones, greedily accept the first
exact match, and accumulate the rename pairs and the two removal lists. -/
def matchLoop (ai : List FileInfo) :
    List FileInfo → List FileRef → List FileRef → List RenamedPair →
      List RenamedPair × List FileRef × List FileRef
  | [], remD, remA, pairs => (pairs, remD, remA)
  | d :: ds, remD, remA, pairs =>
    if d.file ∈ remD then matchLoop ai ds remD remA pairs
    else
      match findFirstMatch d ai remA with
      | some a =>
        matchLoop ai ds (remD ++ [d.file]) (remA ++ [a.file]) (pairs ++ [mkRenamedPair d a])
      | none => matchLoop ai ds remD remA pairs

/-- The pairs and removal lists computed by `_detect_renamed_files` from
the deleted and added lists. -/
def detectPairs (fs : FileSystem) (deleted added : List FileRef) :
    List RenamedPair × List FileRef × List FileRef :=
  matchLoop (buildFileInfo fs added) (buildFileInfo fs deleted) [] [] []

/-- `_detect_renamed_files(result, files1, files2)`: append the matched
pairs to `renamed` and remove the consumed entries from `added` and
`deleted` (first occurrence each, the `list.remove` semantics of
`List.diff`). -/
def detect_renamed_files (fs : FileSystem) (result : CompareResult) : CompareResult :=
  let out := detectPairs fs result.deleted result.added
  { result with
    renamed := result.renamed ++ out.1
    added := result.added.diff out.2.2
    deleted := result.deleted.diff out.2.1 }

/-- The key set difference of `compare_directories`: the entries of `self`
whose relative path has no key in `other`, as `FileRef`s. -/
def onlyIn (other self : List (List Char × List Char)) : List FileRef :=
  (self.filter (fun kv => !hasKey other kv.1)).map (fun kv => FileRef.mk kv.1 kv.2)

/-- The key intersection of `compare_directories`: the entries of `files1`
whose relative path also has a key in `files2`. -/
def commonFiles (files1 files2 : List (List Char × List Char)) :
    List (List Char × List Char) :=
  files1.filter (fun kv => hasKey files2 kv.1)

/-- The per-common-path classification condition of `compare_directories`:
`hash1 != hash2`. -/
def hashesDiffer (fs : FileSystem) (files2 : List (List Char × List Char))
    (kv : List Char × List Char) : Prop :=
  calculate_file_hash fs kv.2 ≠ calculate_file_hash fs ((dictGet files2 kv.1).getD [])

instance (fs : FileSystem) (files2 : List (List Char × List Char))
    (kv : List Char × List Char) : Decidable (hashesDiffer fs files2 kv) :=
  (inferInstance : Decidable
    (calculate_file_hash fs kv.2 ≠ calculate_file_hash fs ((dictGet files2 kv.1).getD [])))

/-- The `modified` list built by the common-path loop. -/
def modifiedList (fs : FileSystem) (files1 files2 : List (List Char × List Char)) :
    List ModifiedEntry :=
  (commonFiles files1 files2).filterMap (fun kv =>
    if hashesDiffer fs files2 kv then
      some (mkModifiedEntry fs kv.1 kv.2 ((dictGet files2 kv.1).getD []))
    else none)

/-- The `unchanged` list built by the common-path loop. -/
def unchangedList (fs : FileSystem) (files1 files2 : List (List Char × List Char)) :
    List UnchangedEntry :=
  (commonFiles files1 files2).filterMap (fun kv =>
    if hashesDiffer fs files2 kv then none
    else some (UnchangedEntry.mk kv.1 kv.2 ((dictGet files2 kv.1).getD [])))

/-- The result of `compare_directories` before rename detection. -/
def preResult (fs : FileSystem) (files1 files2 : List (List Char × List Char)) :
    CompareResult :=
  { added := onlyIn files1 files2, deleted := onlyIn files2 files1,
    modified := modifiedList fs files1 files2, renamed := [],
    unchanged := unchangedList fs files1 files2, renamed_and_modified := [] }

/-- `compare_directories(dir1, dir2)` on the scanned file maps: set
differences give the initial added and deleted lists, common paths are
classified by hash comparison into modified or unchanged, and strategy A
rename detection then runs on the result. -/
def compare_directories (fs : FileSystem)
    (files1 files2 : List (List Char × List Char)) : CompareResult :=
  detect_renamed_files fs (preResult fs files1 files2)

/-- The enrichment loop of `compare_directories_with_git_no_index`: attach
diff lines and a text-similarity score from the extracted texts to a parsed
strategy-B entry (the `try` cannot fire in the model since text extraction
is total). -/
def enrichEntry (fs : FileSystem) (e : RenameEntry) : RMEntry :=
  { old_name := e.old_name, new_name := e.new_name,
    old_path := e.old_path, new_path := e.new_path, similarity := e.similarity,
    diff_lines := diff_text_lines (fs.textOf e.old_path) (fs.textOf e.new_path),
    text_similarity := calculate_text_similarity (fs.textOf e.old_path) (fs.textOf e.new_path) }

/-- The merge step of `compare_directories_with_git_no_index`: for each
detected entry remove every deleted entry named by its old name and every
added entry named by its new name, then extend `renamed_and_modified`. -/
def mergeGitResults (result : CompareResult) (moved : List RMEntry) : CompareResult :=
  { result with
    deleted := moved.foldl (fun del itm => del.filter (fun f => f.name != itm.old_name))
      result.deleted
    added := moved.foldl (fun add itm => add.filter (fun f => f.name != itm.new_name))
      result.added
    renamed_and_modified := result.renamed_and_modified ++ moved }

/-- `compare_directories_with_git_no_index(dir1, dir2)`: run the plain
comparison; when the external tool is available, parse its output, enrich
the entries, and merge (the tool invocation itself, its timeout and its
exit-code handling are environmental: `gitAvailable` and `stdout` stand for
their outcome). -/
def compare_directories_with_git_no_index (fs : FileSystem)
    (files1 files2 : List (List Char × List Char)) (gitAvailable : Bool)
    (norm : List Char → Option (List Char)) (extract1 extract2 : List Char → List Char)
    (stdout : List Char) : CompareResult :=
  let result := compare_directories fs files1 files2
  if gitAvailable then
    mergeGitResults result
      ((detect_moved_and_modified_files_no_index norm extract1 extract2 stdout).map
        (enrichEntry fs))
  else result

/-- The number of times a relative path of the right tree is accounted for
across all result categories that carry right-tree paths (`added`,
`modified`, `unchanged`, `renamed.new`, `renamed_and_modified.new`). -/
def rightOccurrences (r : CompareResult) (n : List Char) : ℕ :=
  r.added.countP (fun f => f.name == n) + r.modified.countP (fun e => e.name == n) +
    r.unchanged.countP (fun e => e.name == n) + r.renamed.countP (fun e => e.new_name == n) +
    r.renamed_and_modified.countP (fun e => e.new_name == n)

/-- The number of times a relative path of the left tree is accounted for
across all result categories that carry left-tree paths. -/
def leftOccurrences (r : CompareResult) (n : List Char) : ℕ :=
  r.deleted.countP (fun f => f.name == n) + r.modified.countP (fun e => e.name == n) +
    r.unchanged.countP (fun e => e.name == n) + r.renamed.countP (fun e => e.old_name == n) +
    r.renamed_and_modified.countP (fun e => e.old_name == n)

/-- The number of times a right-tree path is accounted for across only the
four categories named by the claim (which omits `renamed.new`). -/
def rightOccurrencesStated (r : CompareResult) (n : List Char) : ℕ :=
  r.added.countP (fun f => f.name == n) + r.modified.countP (fun e => e.name == n) +
    r.unchanged.countP (fun e => e.name == n) +
    r.renamed_and_modified.countP (fun e => e.new_name == n)

/-- Concrete environment for counterexamples/witnesses: every file is
readable with the same one-byte digest and size `1`; extracted text is
empty. -/
def fsHash1 : FileSystem := ⟨fun _ => some ['h'], fun _ => some 1, fun _ => []⟩

/-- Concrete environment for counterexamples/witnesses: every file is
unreadable. -/
def fsUnreadable : FileSystem := ⟨fun _ => none, fun _ => some 1, fun _ => []⟩

/-- Concrete environment for counterexamples/witnesses: the file at path
`p1` is unreadable, every other file has digest `d1`. -/
def fsMixed : FileSystem :=
  ⟨fun p => if p = "p1".toList then none else some "d1".toList, fun _ => some 1, fun _ => []⟩

/-- Concrete environment for counterexamples/witnesses: the file at path
`pa` has digest `x`, every other file digest `y`; all sizes `1`. -/
def fsTwo : FileSystem :=
  ⟨fun p => if p = "pa".toList then some ['x'] else some ['y'], fun _ => some 1, fun _ => []⟩

/-! ## Supporting lemmas for the similarity scorer -/

lemma asciiLower_of_space {c : Char} (h : isSpaceChar c = true) : asciiLower c = c := by
  simp only [isSpaceChar, Bool.or_eq_true, decide_eq_true_eq] at h
  rcases h with ((((h | h) | h) | h) | h) | h <;> subst h <;> decide

lemma normalizeText_eq_nil {t : List Char} (h : ∀ c ∈ t, isSpaceChar c = true) :
    normalizeText t = [] := by
  simp only [normalizeText, List.filter_eq_nil_iff, List.mem_map]
  rintro a ⟨c, hc, rfl⟩
  simp [asciiLower_of_space (h c hc), h c hc]

/-- Unfolding equation for `levRowAux` on explicit cons cells. -/
lemma levRowAux_cons (c1 c2 : Char) (cs : List Char) (p0 : ℕ) (ptail : List ℕ) (cur : ℕ) :
    levRowAux c1 (c2 :: cs) (p0 :: ptail) cur =
      min (ptail.headD 0 + 1) (min (cur + 1) (p0 + (if c1 = c2 then 0 else 1))) ::
        levRowAux c1 cs ptail
          (min (ptail.headD 0 + 1) (min (cur + 1) (p0 + (if c1 = c2 then 0 else 1)))) := rfl

/-- On the diagonal (`s1 = s2 = s`), one row of the DP maps the distances
from row `k` to the distances from row `k + 1`. -/
lemma levRowAux_diag (s : List Char) (k : ℕ) (c1 : Char)
    (hc1 : ∀ h : k < s.length, c1 = s.get ⟨k, h⟩) :
    ∀ m j, j + m = s.length →
      levRowAux c1 (s.drop j) ((List.range' j (m + 1)).map (Nat.dist k)) (Nat.dist (k + 1) j) =
        (List.range' (j + 1) m).map (Nat.dist (k + 1)) := by
  intro m
  induction m with
  | zero =>
    intro j hj
    have hdrop : s.drop j = [] := by
      have : j = s.length := by omega
      simp [this]
    simp [hdrop, levRowAux]
  | succ m ih =>
    intro j hj
    have hjlen : j < s.length := by omega
    rw [List.drop_eq_getElem_cons hjlen]
    rw [List.range'_succ, List.map_cons, levRowAux_cons]
    have hhead : (((List.range' (j + 1) (m + 1)).map (Nat.dist k)).headD 0) = Nat.dist k (j + 1) := by
      rw [List.range'_succ, List.map_cons]
      rfl
    rw [hhead]
    have hv : min (Nat.dist k (j + 1) + 1)
        (min (Nat.dist (k + 1) j + 1) (Nat.dist k j + if c1 = s[j] then 0 else 1)) =
        Nat.dist (k + 1) (j + 1) := by
      by_cases hkj : k = j
      · subst hkj
        have hc : c1 = s[k] := by rw [hc1 hjlen]; simp
        rw [if_pos hc]
        simp only [Nat.dist]
        omega
      · by_cases hc : c1 = s[j] <;> [rw [if_pos hc]; rw [if_neg hc]] <;>
          (simp only [Nat.dist]; omega)
    rw [hv]
    conv_rhs => rw [List.range'_succ, List.map_cons]
    congr 1
    exact ih (j + 1) (by omega)

/-- Running the remaining outer iterations from row `k` of the diagonal DP
yields the final row of distances from `s.length`. -/
lemma levLoop_diag (s : List Char) :
    ∀ m k, k + m = s.length →
      levLoop s (s.drop k) k ((List.range' 0 (s.length + 1)).map (Nat.dist k)) =
        (List.range' 0 (s.length + 1)).map (Nat.dist s.length) := by
  intro m
  induction m with
  | zero =>
    intro k hk
    have hk' : k = s.length := by omega
    have hdrop : s.drop k = [] := by simp [hk']
    rw [hdrop, hk']
    rfl
  | succ m ih =>
    intro k hk
    have hklen : k < s.length := by omega
    rw [List.drop_eq_getElem_cons hklen]
    show levLoop s (s.drop (k + 1)) (k + 1)
        (levRowFull s[k] s ((List.range' 0 (s.length + 1)).map (Nat.dist k)) k) = _
    have hrow : levRowFull s[k] s ((List.range' 0 (s.length + 1)).map (Nat.dist k)) k =
        (List.range' 0 (s.length + 1)).map (Nat.dist (k + 1)) := by
      rw [levRowFull]
      conv_rhs => rw [List.range'_succ, List.map_cons]
      have h0 : Nat.dist (k + 1) 0 = k + 1 := by simp [Nat.dist]
      rw [h0]
      congr 1
      have haux := levRowAux_diag s k s[k] (fun h => by simp) s.length 0 (by omega)
      rw [h0] at haux
      simpa using haux
    rw [hrow]
    exact ih (k + 1) (by omega)

/-- The embedded Levenshtein distance of a string with itself is `0`. -/
lemma levenshtein_distance_self (s : List Char) : levenshtein_distance s s = 0 := by
  rw [levenshtein_distance, if_neg (lt_irrefl _)]
  rw [levCompute]
  by_cases h : s.length = 0
  · simp [h]
  · rw [if_neg h]
    have hinit : (List.range (s.length + 1)) =
        (List.range' 0 (s.length + 1)).map (Nat.dist 0) := by
      rw [List.range_eq_range']
      rw [List.map_congr_left (fun j _ => by simp [Nat.dist] : ∀ j ∈ List.range' 0 (s.length + 1), Nat.dist 0 j = id j)]
      simp
    have hmain := levLoop_diag s s.length 0 (by omega)
    simp only [List.drop_zero] at hmain
    rw [hinit, hmain]
    rw [List.range'_concat, List.map_append]
    simp [Nat.dist]

/-- In the case where both texts are non-empty, `_calculate_text_similarity`
computes the clamped normalized edit-distance ratio (the clamp above by `1`
is vacuous since the ratio term is nonnegative, and when both normalizations
are empty the dedicated `max_len == 0` branch agrees with the formula, whose
division by zero is `0` in `ℚ`). -/
lemma similarity_formula : ∀ t1 t2 : List Char, t1 ≠ [] → t2 ≠ [] →
    calculate_text_similarity t1 t2 =
      min 1 (max 0 (1 -
        (levenshtein_distance (normalizeText t1) (normalizeText t2) : ℚ) /
        ((max (normalizeText t1).length (normalizeText t2).length : ℕ) : ℚ))) := by
  intro t1 t2 h1 h2
  rw [calculate_text_similarity]
  rw [if_neg (by tauto), if_neg (by tauto)]
  by_cases hm : max (normalizeText t1).length (normalizeText t2).length = 0
  · rw [if_pos hm]
    have hn1 : normalizeText t1 = [] := by
      simp only [Nat.max_eq_zero_iff] at hm
      exact List.length_eq_zero.mp hm.1
    have hn2 : normalizeText t2 = [] := by
      simp only [Nat.max_eq_zero_iff] at hm
      exact List.length_eq_zero.mp hm.2
    rw [hn1, hn2]
    norm_num [levenshtein_distance, levCompute]
  · rw [if_neg hm]
    have hnum : (0 : ℚ) ≤
        (levenshtein_distance (normalizeText t1) (normalizeText t2) : ℚ) /
        ((max (normalizeText t1).length (normalizeText t2).length : ℕ) : ℚ) :=
      div_nonneg (Nat.cast_nonneg _) (Nat.cast_nonneg _)
    rw [min_eq_right]
    exact max_le (by norm_num) (by linarith)

/-! ## Claim C6: the similarity scorer -/

/-- C6: `_calculate_text_similarity` satisfies the specified case analysis:
both texts empty gives `1.0`; exactly one empty gives `0.0`; otherwise the
score equals `1 - distance / max-length` over the normalized texts, clamped
to `[0, 1]` (when both normalizations are empty the code's dedicated branch
agrees with the formula, whose division by zero is `0` in `ℚ`); and the
similarity of any non-empty text with itself is `1.0`. -/
theorem C6_similarity_spec :
    (calculate_text_similarity [] [] = 1) ∧
    (∀ t : List Char, t ≠ [] →
      calculate_text_similarity t [] = 0 ∧ calculate_text_similarity [] t = 0) ∧
    (∀ t1 t2 : List Char, t1 ≠ [] → t2 ≠ [] →
      calculate_text_similarity t1 t2 =
        min 1 (max 0 (1 -
          (levenshtein_distance (normalizeText t1) (normalizeText t2) : ℚ) /
          ((max (normalizeText t1).length (normalizeText t2).length : ℕ) : ℚ)))) ∧
    (∀ a : List Char, a ≠ [] → calculate_text_similarity a a = 1) := by
  refine ⟨by rw [calculate_text_similarity]; rw [if_pos ⟨rfl, rfl⟩], ?_, similarity_formula, ?_⟩
  · intro t ht
    constructor <;> (rw [calculate_text_similarity]; rw [if_neg (by tauto), if_pos (by tauto)])
  · intro a ha
    rw [similarity_formula a a ha ha, levenshtein_distance_self]
    norm_num

/-- Concrete instantiation of `C6_similarity_spec`. -/
theorem C6_similarity_spec_witness :
    (['a'] : List Char) ≠ [] ∧ (['b'] : List Char) ≠ [] ∧
    calculate_text_similarity ['a'] [] = 0 ∧
    calculate_text_similarity [] ['b'] = 0 ∧
    calculate_text_similarity ['a'] ['b'] =
      min 1 (max 0 (1 -
        (levenshtein_distance (normalizeText ['a']) (normalizeText ['b']) : ℚ) /
        ((max (normalizeText ['a']).length (normalizeText ['b']).length : ℕ) : ℚ))) ∧
    calculate_text_similarity ['a'] ['a'] = 1 :=
  ⟨by decide, by decide,
   (C6_similarity_spec.2.1 ['a'] (by decide)).1,
   (C6_similarity_spec.2.1 ['b'] (by decide)).2,
   C6_similarity_spec.2.2.1 ['a'] ['b'] (by decide) (by decide),
   C6_similarity_spec.2.2.2 ['a'] (by decide)⟩

/-! ## Claim C9: whitespace-only texts -/

/-- C9: two non-empty texts consisting entirely of whitespace characters
both normalize to the empty string, so `_calculate_text_similarity` returns
`1.0` even when the raw texts differ. -/
theorem C9_whitespace_similarity (t1 t2 : List Char) (h1 : t1 ≠ []) (h2 : t2 ≠ [])
    (hw1 : ∀ c ∈ t1, isSpaceChar c = true) (hw2 : ∀ c ∈ t2, isSpaceChar c = true) :
    calculate_text_similarity t1 t2 = 1 := by
  rw [calculate_text_similarity]
  rw [if_neg (by tauto), if_neg (by tauto)]
  rw [if_pos]
  rw [normalizeText_eq_nil hw1, normalizeText_eq_nil hw2]
  rfl

/-- Concrete instantiation of `C9_whitespace_similarity`: a single space
versus two tabs — unequal raw texts, similarity `1.0`. -/
theorem C9_whitespace_similarity_witness :
    ([' '] : List Char) ≠ ['\t', '\t'] ∧
    calculate_text_similarity [' '] ['\t', '\t'] = 1 :=
  ⟨by decide,
   C9_whitespace_similarity [' '] ['\t', '\t'] (by decide) (by decide)
     (by decide) (by decide)⟩

/-! ## Claim C7: the positional line differ -/

/-- C7: `_diff_text_lines` returns exactly the 1-based positions, bounded by
the larger line count, at which the two texts' lines differ positionally
(padding the shorter text with empty lines), each entry carrying the line
number and the two line contents; the reported positions are strictly
increasing, so the result is a set of positions. -/
theorem C7_diff_lines_spec (t1 t2 : List Char) :
    (∀ (i : ℕ) (a b : List Char),
      (i, a, b) ∈ diff_text_lines t1 t2 ↔
        1 ≤ i ∧ i ≤ max (splitlines t1).length (splitlines t2).length ∧
        a = (splitlines t1).getD (i - 1) [] ∧
        b = (splitlines t2).getD (i - 1) [] ∧ a ≠ b) ∧
    List.Pairwise (fun x y => x.1 < y.1) (diff_text_lines t1 t2) := by
  rw [diff_text_lines]
  generalize splitlines t1 = lines1, splitlines t2 = lines2
  constructor
  · intro i a b
    rw [diff_line_lists]
    simp only [List.mem_filterMap, List.mem_range]
    constructor
    · rintro ⟨j, hj, he⟩
      by_cases hne : lines1.getD j [] ≠ lines2.getD j []
      · rw [if_pos hne] at he
        simp only [Option.some_inj, Prod.mk.injEq] at he
        obtain ⟨hi, ha, hb⟩ := he
        subst hi
        refine ⟨by omega, by omega, ?_, ?_, ?_⟩
        · rw [← ha]; congr 1
        · rw [← hb]; congr 1
        · rw [← ha, ← hb]; exact hne
      · rw [if_neg hne] at he
        exact absurd he (by simp)
    · rintro ⟨hi1, hi2, ha, hb, hab⟩
      refine ⟨i - 1, by omega, ?_⟩
      rw [if_pos]
      · simp only [Option.some_inj, Prod.mk.injEq]
        exact ⟨by omega, ha.symm, hb.symm⟩
      · rw [← ha, ← hb]; exact hab
  · rw [diff_line_lists]
    rw [List.pairwise_filterMap]
    apply List.Pairwise.imp ?_ (List.pairwise_lt_range _)
    intro j j' hlt x hx y hy
    have hfst : ∀ (j0 : ℕ) (z : ℕ × List Char × List Char),
        z ∈ (if lines1.getD j0 [] ≠ lines2.getD j0 [] then
          some (j0 + 1, lines1.getD j0 [], lines2.getD j0 []) else none) → z.1 = j0 + 1 := by
      intro j0 z hz
      by_cases hne : lines1.getD j0 [] ≠ lines2.getD j0 []
      · rw [if_pos hne] at hz
        simp only [Option.mem_def, Option.some_inj] at hz
        rw [← hz]
      · rw [if_neg hne] at hz
        exact absurd hz (by simp)
    have hx1 := hfst j x hx
    have hy1 := hfst j' y hy
    omega

/-! ## Claim C3: there is no base-filename similarity filter in strategy B -/

/-- C3 is false on the code: this `R65` line, whose base filenames `a` and
`zzz` have normalized edit-ratio `0`, far below the claimed `0.8` acceptance
threshold, is accepted by the parser of
`detect_moved_and_modified_files_no_index`. -/
theorem C3_counterexample :
    processGitLine some id id "R065\ta.docx\tzzz.docx".toList =
      some ⟨"a.docx".toList, "zzz.docx".toList, "a.docx".toList, "zzz.docx".toList, 65⟩ ∧
    basename_similarity "a.docx".toList "zzz.docx".toList < 4 / 5 := by
  constructor
  · decide
  · rw [basename_similarity]
    rw [show splitextStem "a.docx".toList = "a".toList from by decide]
    rw [show splitextStem "zzz.docx".toList = "zzz".toList from by decide]
    rw [similarity_formula "a".toList "zzz".toList (by decide) (by decide)]
    rw [show levenshtein_distance (normalizeText "a".toList) (normalizeText "zzz".toList) = 3
      from by decide]
    rw [show max (normalizeText "a".toList).length (normalizeText "zzz".toList).length = 3
      from by decide]
    norm_num

/-- Characterization of the acceptance condition of the per-line parser:
a line contributes an entry exactly when it
has at least three tab-separated fields, an `R` status, both paths decode
and normalize, both extracted names are well-formed with supported
extensions, and the attached similarity is below `100` or both names
contain the marker substring. -/
lemma processGitLine_some_iff (norm : List Char → Option (List Char))
    (extract1 extract2 : List Char → List Char) (line : List Char) (entry : RenameEntry) :
    processGitLine norm extract1 extract2 line = some entry ↔
      3 ≤ (line.splitOn '\t').length ∧
      (stripChars ((line.splitOn '\t').getD 0 [])).take 1 = ['R'] ∧
      ∃ old_path new_path,
        norm (decode_git_path (stripChars ((line.splitOn '\t').getD 1 []))) = some old_path ∧
        norm (decode_git_path (stripChars ((line.splitOn '\t').getD 2 []))) = some new_path ∧
        invalidExtractedName (extract1 old_path) = false ∧
        invalidExtractedName (extract2 new_path) = false ∧
        (splitextExt (extract1 old_path)).map asciiLower ∈ supported_extensions ∧
        (splitextExt (extract2 new_path)).map asciiLower ∈ supported_extensions ∧
        (statusSimilarity (stripChars ((line.splitOn '\t').getD 0 [])) < 100 ∨
          (markerChars <:+: extract1 old_path ∧ markerChars <:+: extract2 new_path)) ∧
        entry = ⟨extract1 old_path, extract2 new_path, old_path, new_path,
          statusSimilarity (stripChars ((line.splitOn '\t').getD 0 []))⟩ := by
  constructor
  · intro h
    simp only [processGitLine] at h
    split at h
    · exact absurd h (by simp)
    · rename_i h3
      split at h
      · rename_i hR
        split at h
        · rename_i old_path new_path h1 h2
          split at h
          · exact absurd h (by simp)
          · rename_i hval
            split at h
            · rename_i hext
              split at h
              · rename_i hacc
                simp only [Option.some_inj] at h
                push_neg at hval
                exact ⟨by omega, hR, old_path, new_path, h1, h2,
                  Bool.not_eq_true _ ▸ hval.1, Bool.not_eq_true _ ▸ hval.2,
                  hext.1, hext.2, hacc, h.symm⟩
              · exact absurd h (by simp)
            · exact absurd h (by simp)
        · exact absurd h (by simp)
      · exact absurd h (by simp)
  · rintro ⟨h3, hR, old_path, new_path, h1, h2, hv1, hv2, he1, he2, hacc, rfl⟩
    simp only [processGitLine]
    rw [if_neg (by omega), if_pos hR, h1, h2]
    dsimp only
    rw [if_neg (by simp [hv1, hv2]), if_pos ⟨he1, he2⟩, if_pos hacc]

/-- C3 amended: `detect_moved_and_modified_files_no_index` applies no
base-filename similarity test at all.  A line is accepted exactly when it
has at least three tab-separated fields, an `R` status, both paths decode
and normalize, both extracted names are well-formed with supported
extensions, and the attached similarity is below `100` or both names
contain the marker substring — the base filenames play no further role. -/
theorem C3_amended_acceptance (norm : List Char → Option (List Char))
    (extract1 extract2 : List Char → List Char) (line : List Char) (entry : RenameEntry) :
    processGitLine norm extract1 extract2 line = some entry ↔
      3 ≤ (line.splitOn '\t').length ∧
      (stripChars ((line.splitOn '\t').getD 0 [])).take 1 = ['R'] ∧
      ∃ old_path new_path,
        norm (decode_git_path (stripChars ((line.splitOn '\t').getD 1 []))) = some old_path ∧
        norm (decode_git_path (stripChars ((line.splitOn '\t').getD 2 []))) = some new_path ∧
        invalidExtractedName (extract1 old_path) = false ∧
        invalidExtractedName (extract2 new_path) = false ∧
        (splitextExt (extract1 old_path)).map asciiLower ∈ supported_extensions ∧
        (splitextExt (extract2 new_path)).map asciiLower ∈ supported_extensions ∧
        (statusSimilarity (stripChars ((line.splitOn '\t').getD 0 [])) < 100 ∨
          (markerChars <:+: extract1 old_path ∧ markerChars <:+: extract2 new_path)) ∧
        entry = ⟨extract1 old_path, extract2 new_path, old_path, new_path,
          statusSimilarity (stripChars ((line.splitOn '\t').getD 0 []))⟩ :=
  processGitLine_some_iff norm extract1 extract2 line entry

/-! ## Claim C8: malformed octal escapes do not cause entries to be skipped -/

/-- C8 is false on the code: the old path of this line contains the
malformed escape backslash-999 (`int("999", 8)` raises in Python), yet
`_decode_git_path` returns the path verbatim — its `except` clause returns
the original string — and the entry is parsed and reported rather than
skipped. -/
theorem C8_counterexample :
    decode_git_path "\\999a.docx".toList = "\\999a.docx".toList ∧
    detect_moved_and_modified_files_no_index some id id
        "R065\t\\999a.docx\tzzz.docx".toList =
      [⟨"\\999a.docx".toList, "zzz.docx".toList, "\\999a.docx".toList,
        "zzz.docx".toList, 65⟩] := by
  constructor
  · decide
  · decide

/-- C8 amended: a path containing a malformed three-digit octal escape is
returned verbatim (after quote stripping) by `_decode_git_path`, and the
entry is processed with that raw path rather than skipped; independently,
parsing is line-by-line, so any lines, well-formed or not, never affect the
parsing of the remaining lines. -/
theorem C8_amended_malformed_escape :
    (∀ rawPath : List Char,
      (scanEscapes (stripQuoteChars rawPath)).any segMalformed = true →
        decode_git_path rawPath = stripQuoteChars rawPath) ∧
    (∀ (norm : List Char → Option (List Char)) (extract1 extract2 : List Char → List Char)
        (ls1 ls2 : List (List Char)),
      detect_lines norm extract1 extract2 (ls1 ++ ls2) =
        detect_lines norm extract1 extract2 ls1 ++ detect_lines norm extract1 extract2 ls2) := by
  constructor
  · intro rawPath h
    simp only [decode_git_path]
    rw [if_pos h]
  · intro norm extract1 extract2 ls1 ls2
    simp [detect_lines, List.filterMap_append]

/-- Concrete instantiation of `C8_amended_malformed_escape`. -/
theorem C8_amended_malformed_escape_witness :
    (scanEscapes (stripQuoteChars "\\888b.docx".toList)).any segMalformed = true ∧
    decode_git_path "\\888b.docx".toList = stripQuoteChars "\\888b.docx".toList ∧
    detect_lines some id id
        (["R065\ta.docx\tb.docx".toList] ++ ["R070\tc.docx\td.docx".toList]) =
      detect_lines some id id ["R065\ta.docx\tb.docx".toList] ++
        detect_lines some id id ["R070\tc.docx\td.docx".toList] :=
  ⟨by decide, C8_amended_malformed_escape.1 _ (by decide),
   C8_amended_malformed_escape.2 some id id _ _⟩

/-! ## Generic counting lemmas used for the partition arguments -/

lemma ite_mem_le_countP {α} [DecidableEq α] (p : α → Bool) (l : List α) (x : α) :
    (if x ∈ l ∧ p x = true then 1 else 0) ≤ l.countP p := by
  split
  · rename_i h
    exact List.countP_pos_iff.mpr ⟨x, h.1, h.2⟩
  · exact Nat.zero_le _

lemma countP_erase {α} [DecidableEq α] (p : α → Bool) (l : List α) (x : α) :
    (l.erase x).countP p = l.countP p - (if x ∈ l ∧ p x = true then 1 else 0) := by
  induction l with
  | nil => simp
  | cons a l ih =>
    by_cases hax : a = x
    · subst hax
      rw [List.erase_cons_head]
      rw [List.countP_cons]
      by_cases hpa : p a = true <;> simp [hpa]
    · rw [List.erase_cons_tail (by simp [hax])]
      rw [List.countP_cons, ih, List.countP_cons]
      have hxa : x ≠ a := fun h => hax h.symm
      have hiff : (x ∈ a :: l ∧ p x = true) ↔ (x ∈ l ∧ p x = true) := by
        simp [List.mem_cons, hxa]
      rw [if_congr hiff rfl rfl]
      have hle := ite_mem_le_countP p l x
      split_ifs at hle ⊢ <;> omega

lemma countP_diff {α} [DecidableEq α] (p : α → Bool) :
    ∀ (l₂ l₁ : List α), l₂.Nodup → (∀ x ∈ l₂, x ∈ l₁) →
      (l₁.diff l₂).countP p = l₁.countP p - l₂.countP p ∧ l₂.countP p ≤ l₁.countP p := by
  intro l₂
  induction l₂ with
  | nil => intro l₁ _ _; simp
  | cons x l₂ ih =>
    intro l₁ hnd hsub
    rw [List.diff_cons]
    have hx : x ∈ l₁ := hsub x (by simp)
    have hnd' := (List.nodup_cons.mp hnd).2
    have hxl : x ∉ l₂ := (List.nodup_cons.mp hnd).1
    have hsub' : ∀ y ∈ l₂, y ∈ l₁.erase x := by
      intro y hy
      have hyx : y ≠ x := fun h => hxl (h ▸ hy)
      exact (List.mem_erase_of_ne hyx).mpr (hsub y (by simp [hy]))
    obtain ⟨ihe, ihle⟩ := ih (l₁.erase x) hnd' hsub'
    rw [ihe, countP_erase, List.countP_cons]
    have hiff : (x ∈ l₁ ∧ p x = true) ↔ (p x = true) := ⟨And.right, fun h => ⟨hx, h⟩⟩
    rw [if_congr hiff rfl rfl]
    rw [countP_erase, if_congr hiff rfl rfl] at ihle
    have hle := ite_mem_le_countP p l₁ x
    rw [if_congr hiff rfl rfl] at hle
    refine ⟨?_, ?_⟩ <;> split_ifs at ihle hle ⊢ <;> omega

lemma countP_filterMap_ite {α β} (c : α → Prop) [DecidablePred c] (g : α → β)
    (p : β → Bool) (q : α → Bool) (hq : ∀ x, p (g x) = q x) (l : List α) :
    (l.filterMap (fun x => if c x then some (g x) else none)).countP p =
      l.countP (fun x => decide (c x) && q x) := by
  induction l with
  | nil => rfl
  | cons a l ih =>
    rw [List.filterMap_cons, List.countP_cons]
    by_cases hc : c a
    · simp only [if_pos hc]
      rw [List.countP_cons, ih, hq]
      simp [hc]
    · simp only [if_neg hc]
      rw [ih]
      simp [hc]

lemma countP_filterMap_ite_neg {α β} (c : α → Prop) [DecidablePred c] (g : α → β)
    (p : β → Bool) (q : α → Bool) (hq : ∀ x, p (g x) = q x) (l : List α) :
    (l.filterMap (fun x => if c x then none else some (g x))).countP p =
      l.countP (fun x => !decide (c x) && q x) := by
  induction l with
  | nil => rfl
  | cons a l ih =>
    rw [List.filterMap_cons, List.countP_cons]
    by_cases hc : c a
    · simp only [if_pos hc]
      rw [ih]
      simp [hc]
    · simp only [if_neg hc]
      rw [List.countP_cons, ih, hq]
      simp [hc]

lemma countP_and_not_add {α} (c q : α → Bool) (l : List α) :
    l.countP (fun x => c x && q x) + l.countP (fun x => !c x && q x) = l.countP q := by
  induction l with
  | nil => rfl
  | cons a l ih =>
    rw [List.countP_cons, List.countP_cons, List.countP_cons]
    by_cases hc : c a = true <;> by_cases hq : q a = true <;> simp [hc, hq] <;> omega

lemma foldl_filter_countP {α β} [DecidableEq α] (g : β → List Char) (sel : α → List Char) :
    ∀ (M : List β) (l0 : List α) (n : List Char),
      (M.foldl (fun l itm => l.filter (fun f => sel f != g itm)) l0).countP
          (fun f => sel f == n) =
        if n ∈ M.map g then 0 else l0.countP (fun f => sel f == n) := by
  intro M
  induction M with
  | nil => intro l0 n; simp
  | cons m M ih =>
    intro l0 n
    rw [List.foldl_cons, ih]
    by_cases hmem : n ∈ M.map g
    · simp [hmem]
    · rw [if_neg hmem]
      by_cases hnm : n = g m
      · rw [if_pos (by simp [hnm])]
        rw [List.countP_filter, List.countP_eq_zero]
        intro a _
        simp only [Bool.and_eq_true, beq_iff_eq, bne_iff_ne, ne_eq]
        rintro ⟨rfl, hne⟩
        exact hne hnm
      · rw [if_neg (by simp [hmem, hnm])]
        rw [List.countP_filter]
        apply List.countP_congr
        intro a _
        simp only [Bool.and_eq_true, beq_iff_eq, bne_iff_ne, ne_eq]
        constructor
        · rintro ⟨h, _⟩
          exact h
        · intro h
          exact ⟨h, by rw [h]; exact hnm⟩

/-! ## Association-list (Python dict) lemmas -/

lemma nodup_keys_eq_val {l : List (List Char × List Char)} (h : (l.map Prod.fst).Nodup)
    {a b c : List Char} (h1 : (a, b) ∈ l) (h2 : (a, c) ∈ l) : b = c := by
  induction l with
  | nil => cases h1
  | cons kv l ih =>
    rw [List.map_cons, List.nodup_cons] at h
    rcases List.mem_cons.mp h1 with he1 | ht1 <;> rcases List.mem_cons.mp h2 with he2 | ht2
    · rw [← he1] at he2
      exact ((Prod.mk.injEq _ _ _ _).mp he2).2.symm
    · exfalso
      apply h.1
      rw [← he1]
      show a ∈ List.map Prod.fst l
      exact List.mem_map_of_mem Prod.fst ht2
    · exfalso
      apply h.1
      rw [← he2]
      show a ∈ List.map Prod.fst l
      exact List.mem_map_of_mem Prod.fst ht1
    · exact ih h.2 ht1 ht2

lemma dictGet_some_mem {m : List (List Char × List Char)} {k v : List Char}
    (h : dictGet m k = some v) : (k, v) ∈ m := by
  rw [dictGet] at h
  obtain ⟨kv, hfind, hv⟩ := Option.map_eq_some'.mp h
  have hk : kv.1 = k := by simpa using List.find?_some hfind
  have := List.mem_of_find?_eq_some hfind
  rwa [show (k, v) = kv from by rw [← hk, ← hv]]

lemma hasKey_iff {m : List (List Char × List Char)} {k : List Char} :
    hasKey m k = true ↔ k ∈ m.map Prod.fst := by
  rw [hasKey, List.any_eq_true]
  simp only [beq_iff_eq, List.mem_map]

lemma dictGet_some_hasKey {m : List (List Char × List Char)} {k v : List Char}
    (h : dictGet m k = some v) : hasKey m k = true :=
  hasKey_iff.mpr (List.mem_map_of_mem Prod.fst (dictGet_some_mem h))

/-! ## Lemmas about strategy A rename detection -/

lemma buildFileInfo_mem {fs : FileSystem} {l : List FileRef} {x : FileInfo}
    (hx : x ∈ buildFileInfo fs l) :
    x.file ∈ l ∧ fs.size x.file.path = some x.size ∧
    x.hash = calculate_file_hash fs x.file.path ∧ x.hash ≠ [] ∧
    x.ext = (pathSuffix x.file.path).map asciiLower := by
  rw [buildFileInfo, List.mem_filterMap] at hx
  obtain ⟨f, hf, he⟩ := hx
  cases hsz : fs.size f.path with
  | none => rw [hsz] at he; exact absurd he (by simp)
  | some sz =>
    rw [hsz] at he
    dsimp only at he
    by_cases hh : calculate_file_hash fs f.path ≠ []
    · rw [if_pos hh] at he
      rw [Option.some_inj] at he
      subst he
      exact ⟨hf, hsz, rfl, hh, rfl⟩
    · rw [if_neg hh] at he
      exact absurd he (by simp)

lemma findFirstMatch_some {d : FileInfo} : ∀ {ai : List FileInfo} {remA : List FileRef}
    {a : FileInfo}, findFirstMatch d ai remA = some a →
    a ∈ ai ∧ a.file ∉ remA ∧ (d.hash = a.hash ∧ d.size = a.size ∧ d.ext = a.ext) ∧
    ∃ pre suf, ai = pre ++ a :: suf ∧
      ∀ a' ∈ pre, a'.file ∈ remA ∨ ¬(d.hash = a'.hash ∧ d.size = a'.size ∧ d.ext = a'.ext) := by
  intro ai
  induction ai with
  | nil => intro remA a h; exact absurd h (by simp [findFirstMatch])
  | cons b rest ih =>
    intro remA a h
    rw [findFirstMatch] at h
    by_cases hbm : b.file ∈ remA
    · rw [if_pos hbm] at h
      obtain ⟨h0, h1, h2, pre, suf, heq, hpre⟩ := ih h
      refine ⟨by simp [h0], h1, h2, b :: pre, suf, by rw [heq]; rfl, ?_⟩
      intro a' ha'
      rcases List.mem_cons.mp ha' with rfl | ha'
      · exact Or.inl hbm
      · exact hpre a' ha'
    · rw [if_neg hbm] at h
      by_cases htr : d.hash = b.hash ∧ d.size = b.size ∧ d.ext = b.ext
      · rw [if_pos htr] at h
        rw [Option.some_inj] at h
        subst h
        exact ⟨by simp, hbm, htr, [], rest, rfl, by simp⟩
      · rw [if_neg htr] at h
        obtain ⟨h0, h1, h2, pre, suf, heq, hpre⟩ := ih h
        refine ⟨by simp [h0], h1, h2, b :: pre, suf, by rw [heq]; rfl, ?_⟩
        intro a' ha'
        rcases List.mem_cons.mp ha' with rfl | ha'
        · exact Or.inr htr
        · exact hpre a' ha'

/-- The master invariant of the matching loop of `_detect_renamed_files`:
the produced pairs extend the accumulator, the removal lists are extended
exactly by the files of the produced pairs in order, every produced pair
joins a deleted record and an added record with equal `(hash, size, ext)`
triples, and the removal lists stay duplicate-free. -/
lemma matchLoop_spec (ai : List FileInfo) :
    ∀ (ds : List FileInfo) (remD remA : List FileRef) (pairs : List RenamedPair),
    ∃ np : List RenamedPair,
      (matchLoop ai ds remD remA pairs).1 = pairs ++ np ∧
      (matchLoop ai ds remD remA pairs).2.1 = remD ++ np.map pairOldRef ∧
      (matchLoop ai ds remD remA pairs).2.2 = remA ++ np.map pairNewRef ∧
      (∀ pr ∈ np, ∃ d ∈ ds, ∃ a ∈ ai, pr = mkRenamedPair d a ∧
        d.hash = a.hash ∧ d.size = a.size ∧ d.ext = a.ext) ∧
      (remA.Nodup → (remA ++ np.map pairNewRef).Nodup) ∧
      (remD.Nodup → (remD ++ np.map pairOldRef).Nodup) := by
  intro ds
  induction ds with
  | nil =>
    intro remD remA pairs
    exact ⟨[], by simp [matchLoop], by simp [matchLoop], by simp [matchLoop],
      by simp, fun h => by simpa, fun h => by simpa⟩
  | cons d ds ih =>
    intro remD remA pairs
    by_cases hd : d.file ∈ remD
    · have hstep : matchLoop ai (d :: ds) remD remA pairs = matchLoop ai ds remD remA pairs := by
        rw [matchLoop, if_pos hd]
      obtain ⟨np, h1, h2, h3, h4, h5, h6⟩ := ih remD remA pairs
      rw [hstep]
      refine ⟨np, h1, h2, h3, ?_, h5, h6⟩
      intro pr hpr
      obtain ⟨d', hd', a, ha, he⟩ := h4 pr hpr
      exact ⟨d', by simp [hd'], a, ha, he⟩
    · cases hfm : findFirstMatch d ai remA with
      | none =>
        have hstep : matchLoop ai (d :: ds) remD remA pairs =
            matchLoop ai ds remD remA pairs := by
          rw [matchLoop, if_neg hd, hfm]
        obtain ⟨np, h1, h2, h3, h4, h5, h6⟩ := ih remD remA pairs
        rw [hstep]
        refine ⟨np, h1, h2, h3, ?_, h5, h6⟩
        intro pr hpr
        obtain ⟨d', hd', a, ha, he⟩ := h4 pr hpr
        exact ⟨d', by simp [hd'], a, ha, he⟩
      | some a =>
        have hstep : matchLoop ai (d :: ds) remD remA pairs =
            matchLoop ai ds (remD ++ [d.file]) (remA ++ [a.file])
              (pairs ++ [mkRenamedPair d a]) := by
          rw [matchLoop, if_neg hd, hfm]
        obtain ⟨hamem, hanotin, htr, _⟩ := findFirstMatch_some hfm
        obtain ⟨np, h1, h2, h3, h4, h5, h6⟩ :=
          ih (remD ++ [d.file]) (remA ++ [a.file]) (pairs ++ [mkRenamedPair d a])
        rw [hstep]
        refine ⟨mkRenamedPair d a :: np, ?_, ?_, ?_, ?_, ?_, ?_⟩
        · rw [h1, List.append_assoc]; rfl
        · rw [h2, List.append_assoc]; rfl
        · rw [h3, List.append_assoc]; rfl
        · intro pr hpr
          rcases List.mem_cons.mp hpr with rfl | hpr
          · exact ⟨d, by simp, a, hamem, rfl, htr⟩
          · obtain ⟨d', hd', a', ha', he⟩ := h4 pr hpr
            exact ⟨d', by simp [hd'], a', ha', he⟩
        · intro hnd
          have : (remA ++ [a.file]).Nodup := by
            rw [List.nodup_append]
            exact ⟨hnd, List.nodup_singleton _, by
              intro x hx hx'
              rw [List.mem_singleton.mp hx'] at hx
              exact hanotin hx⟩
          have := h5 this
          rwa [List.append_assoc] at this
        · intro hnd
          have : (remD ++ [d.file]).Nodup := by
            rw [List.nodup_append]
            exact ⟨hnd, List.nodup_singleton _, by
              intro x hx hx'
              rw [List.mem_singleton.mp hx'] at hx
              exact hd hx⟩
          have := h6 this
          rwa [List.append_assoc] at this

lemma detect_renamed_files_added (fs : FileSystem) (r : CompareResult) :
    (detect_renamed_files fs r).added = r.added.diff (detectPairs fs r.deleted r.added).2.2 := rfl

lemma detect_renamed_files_deleted (fs : FileSystem) (r : CompareResult) :
    (detect_renamed_files fs r).deleted =
      r.deleted.diff (detectPairs fs r.deleted r.added).2.1 := rfl

lemma detect_renamed_files_renamed (fs : FileSystem) (r : CompareResult) :
    (detect_renamed_files fs r).renamed = r.renamed ++ (detectPairs fs r.deleted r.added).1 := rfl

lemma detect_renamed_files_modified (fs : FileSystem) (r : CompareResult) :
    (detect_renamed_files fs r).modified = r.modified := rfl

lemma detect_renamed_files_unchanged (fs : FileSystem) (r : CompareResult) :
    (detect_renamed_files fs r).unchanged = r.unchanged := rfl

lemma detect_renamed_files_rm (fs : FileSystem) (r : CompareResult) :
    (detect_renamed_files fs r).renamed_and_modified = r.renamed_and_modified := rfl

/-- The output components of `detectPairs` in terms of the produced pairs,
together with their structural properties. -/
lemma detectPairs_spec (fs : FileSystem) (deleted added : List FileRef) :
    (detectPairs fs deleted added).2.1 = (detectPairs fs deleted added).1.map pairOldRef ∧
    (detectPairs fs deleted added).2.2 = (detectPairs fs deleted added).1.map pairNewRef ∧
    (∀ pr ∈ (detectPairs fs deleted added).1,
      ∃ d ∈ buildFileInfo fs deleted, ∃ a ∈ buildFileInfo fs added,
        pr = mkRenamedPair d a ∧ d.hash = a.hash ∧ d.size = a.size ∧ d.ext = a.ext) ∧
    ((detectPairs fs deleted added).1.map pairNewRef).Nodup ∧
    ((detectPairs fs deleted added).1.map pairOldRef).Nodup := by
  obtain ⟨np, h1, h2, h3, h4, h5, h6⟩ :=
    matchLoop_spec (buildFileInfo fs added) (buildFileInfo fs deleted) [] [] []
  have e1 : (detectPairs fs deleted added).1 = np := by rw [detectPairs, h1]; simp
  have e2 : (detectPairs fs deleted added).2.1 = np.map pairOldRef := by
    rw [detectPairs, h2]; simp
  have e3 : (detectPairs fs deleted added).2.2 = np.map pairNewRef := by
    rw [detectPairs, h3]; simp
  refine ⟨by rw [e2, e1], by rw [e3, e1], ?_, ?_, ?_⟩
  · rw [e1]; exact h4
  · rw [e1]; simpa using h5 List.nodup_nil
  · rw [e1]; simpa using h6 List.nodup_nil

/-- Strategy A rename detection moves entries between categories without
changing how often any relative path is accounted for, on either side. -/
lemma detect_renamed_files_counts (fs : FileSystem) (r : CompareResult) (n : List Char) :
    rightOccurrences (detect_renamed_files fs r) n = rightOccurrences r n ∧
    leftOccurrences (detect_renamed_files fs r) n = leftOccurrences r n := by
  obtain ⟨e2, e3, h4, hndA, hndD⟩ := detectPairs_spec fs r.deleted r.added
  set np := (detectPairs fs r.deleted r.added).1 with hnp
  have hsubA : ∀ x ∈ np.map pairNewRef, x ∈ r.added := by
    intro x hx
    obtain ⟨pr, hpr, rfl⟩ := List.mem_map.mp hx
    obtain ⟨d, hd, a, ha, rfl, _⟩ := h4 pr hpr
    exact (buildFileInfo_mem ha).1
  have hsubD : ∀ x ∈ np.map pairOldRef, x ∈ r.deleted := by
    intro x hx
    obtain ⟨pr, hpr, rfl⟩ := List.mem_map.mp hx
    obtain ⟨d, hd, a, ha, rfl, _⟩ := h4 pr hpr
    exact (buildFileInfo_mem hd).1
  obtain ⟨heqA, hleA⟩ := countP_diff (fun f => f.name == n) (np.map pairNewRef) r.added hndA hsubA
  obtain ⟨heqD, hleD⟩ :=
    countP_diff (fun f => f.name == n) (np.map pairOldRef) r.deleted hndD hsubD
  have hcntA : (np.map pairNewRef).countP (fun f => f.name == n) =
      np.countP (fun pr => pr.new_name == n) := by
    rw [List.countP_map]; rfl
  have hcntD : (np.map pairOldRef).countP (fun f => f.name == n) =
      np.countP (fun pr => pr.old_name == n) := by
    rw [List.countP_map]; rfl
  constructor
  · rw [rightOccurrences, rightOccurrences, detect_renamed_files_added,
      detect_renamed_files_renamed, detect_renamed_files_modified,
      detect_renamed_files_unchanged, detect_renamed_files_rm, e3, ← hnp, heqA,
      List.countP_append]
    rw [hcntA] at heqA hleA ⊢
    omega
  · rw [leftOccurrences, leftOccurrences, detect_renamed_files_deleted,
      detect_renamed_files_renamed, detect_renamed_files_modified,
      detect_renamed_files_unchanged, detect_renamed_files_rm, e2, ← hnp, heqD,
      List.countP_append]
    rw [hcntD] at heqD hleD ⊢
    omega

/-! ## The initial six-way partition before rename detection -/

lemma countP_congr_fun {α} {p q : α → Bool} (h : ∀ x, p x = q x) (l : List α) :
    l.countP p = l.countP q :=
  List.countP_congr (fun x _ => by rw [h x])

lemma onlyIn_countP (other self : List (List Char × List Char)) (n : List Char) :
    (onlyIn other self).countP (fun f => f.name == n) =
      self.countP (fun kv => (kv.1 == n) && !hasKey other kv.1) := by
  rw [onlyIn, List.countP_map, List.countP_filter]
  rfl

lemma modifiedList_countP (fs : FileSystem) (files1 files2 : List (List Char × List Char))
    (n : List Char) :
    (modifiedList fs files1 files2).countP (fun e => e.name == n) =
      files1.countP (fun kv =>
        (decide (hashesDiffer fs files2 kv) && (kv.1 == n)) && hasKey files2 kv.1) := by
  rw [modifiedList,
    countP_filterMap_ite (hashesDiffer fs files2) _ _ (fun kv => kv.1 == n) (fun kv => rfl),
    commonFiles, List.countP_filter]

lemma unchangedList_countP (fs : FileSystem) (files1 files2 : List (List Char × List Char))
    (n : List Char) :
    (unchangedList fs files1 files2).countP (fun e => e.name == n) =
      files1.countP (fun kv =>
        (!decide (hashesDiffer fs files2 kv) && (kv.1 == n)) && hasKey files2 kv.1) := by
  rw [unchangedList,
    countP_filterMap_ite_neg (hashesDiffer fs files2) _ _ (fun kv => kv.1 == n) (fun kv => rfl),
    commonFiles, List.countP_filter]

lemma modified_unchanged_sum (fs : FileSystem) (files1 files2 : List (List Char × List Char))
    (n : List Char) :
    (modifiedList fs files1 files2).countP (fun e => e.name == n) +
      (unchangedList fs files1 files2).countP (fun e => e.name == n) =
      files1.countP (fun kv => (kv.1 == n) && hasKey files2 kv.1) := by
  rw [modifiedList_countP, unchangedList_countP]
  rw [countP_congr_fun
    (fun kv => Bool.and_assoc (decide (hashesDiffer fs files2 kv)) _ _) files1]
  rw [countP_congr_fun
    (fun kv => Bool.and_assoc (!decide (hashesDiffer fs files2 kv)) _ _) files1]
  exact countP_and_not_add (fun kv => decide (hashesDiffer fs files2 kv))
    (fun kv => (kv.1 == n) && hasKey files2 kv.1) files1

lemma countP_key_eq_one (m : List (List Char × List Char)) :
    (m.map Prod.fst).Nodup → ∀ n : List Char, n ∈ m.map Prod.fst →
      m.countP (fun kv => kv.1 == n) = 1 := by
  induction m with
  | nil => intro _ n hn; simp at hn
  | cons kv m ih =>
    intro h n hn
    rw [List.map_cons, List.nodup_cons] at h
    rw [List.countP_cons]
    rcases List.mem_cons.mp hn with heq | htail
    · have hz : m.countP (fun kv' => kv'.1 == n) = 0 := by
        rw [List.countP_eq_zero]
        intro a ha
        simp only [beq_iff_eq]
        intro hna
        exact h.1 (heq ▸ hna ▸ List.mem_map_of_mem Prod.fst ha)
      rw [hz]
      simp [heq]
    · have hnk : ¬(kv.1 == n) = true := by
        simp only [beq_iff_eq]
        intro he
        exact h.1 (he ▸ htail)
      rw [ih h.2 n htail]
      simp [hnk]

lemma preResult_right (fs : FileSystem) (files1 files2 : List (List Char × List Char))
    (n : List Char) :
    rightOccurrences (preResult fs files1 files2) n =
      (onlyIn files1 files2).countP (fun f => f.name == n) +
      (modifiedList fs files1 files2).countP (fun e => e.name == n) +
      (unchangedList fs files1 files2).countP (fun e => e.name == n) := rfl

lemma preResult_left (fs : FileSystem) (files1 files2 : List (List Char × List Char))
    (n : List Char) :
    leftOccurrences (preResult fs files1 files2) n =
      (onlyIn files2 files1).countP (fun f => f.name == n) +
      (modifiedList fs files1 files2).countP (fun e => e.name == n) +
      (unchangedList fs files1 files2).countP (fun e => e.name == n) := rfl

lemma right_initial_partition (fs : FileSystem)
    (files1 files2 : List (List Char × List Char))
    (h1 : (files1.map Prod.fst).Nodup) (h2 : (files2.map Prod.fst).Nodup)
    (n : List Char) (hn : n ∈ files2.map Prod.fst) :
    rightOccurrences (preResult fs files1 files2) n = 1 := by
  rw [preResult_right, onlyIn_countP]
  have hsum := modified_unchanged_sum fs files1 files2 n
  by_cases hk1 : hasKey files1 n = true
  · have hadd0 : files2.countP (fun kv => (kv.1 == n) && !hasKey files1 kv.1) = 0 := by
      rw [List.countP_eq_zero]
      intro kv hkv
      simp only [Bool.and_eq_true, beq_iff_eq, Bool.not_eq_true']
      rintro ⟨heq, hk⟩
      rw [heq, hk1] at hk
      cases hk
    have hcomm : files1.countP (fun kv => (kv.1 == n) && hasKey files2 kv.1) = 1 := by
      have hf1 : files1.countP (fun kv => kv.1 == n) = 1 :=
        countP_key_eq_one files1 h1 n (hasKey_iff.mp hk1)
      rw [← hf1]
      apply List.countP_congr
      intro kv hkv
      simp only [Bool.and_eq_true, beq_iff_eq]
      constructor
      · exact And.left
      · intro h
        exact ⟨h, by rw [h]; exact hasKey_iff.mpr hn⟩
    omega
  · have hk1' : hasKey files1 n = false := by
      simpa using hk1
    have hadd1 : files2.countP (fun kv => (kv.1 == n) && !hasKey files1 kv.1) = 1 := by
      have hf2 := countP_key_eq_one files2 h2 n hn
      rw [← hf2]
      apply List.countP_congr
      intro kv hkv
      simp only [Bool.and_eq_true, beq_iff_eq, Bool.not_eq_true']
      constructor
      · exact And.left
      · intro h
        exact ⟨h, by rw [h]; exact hk1'⟩
    have hcomm0 : files1.countP (fun kv => (kv.1 == n) && hasKey files2 kv.1) = 0 := by
      rw [List.countP_eq_zero]
      intro kv hkv
      simp only [Bool.and_eq_true, beq_iff_eq]
      rintro ⟨heq, _⟩
      exact hk1 (hasKey_iff.mpr (heq ▸ List.mem_map_of_mem Prod.fst hkv))
    omega

lemma left_initial_partition (fs : FileSystem)
    (files1 files2 : List (List Char × List Char))
    (h1 : (files1.map Prod.fst).Nodup) (n : List Char) (hn : n ∈ files1.map Prod.fst) :
    leftOccurrences (preResult fs files1 files2) n = 1 := by
  rw [preResult_left, onlyIn_countP]
  have hsum := modified_unchanged_sum fs files1 files2 n
  have hmain := countP_and_not_add (fun kv => !hasKey files2 kv.1)
    (fun kv => kv.1 == n) files1
  simp only [Bool.not_not] at hmain
  have hdel : files1.countP (fun kv => (kv.1 == n) && !hasKey files2 kv.1) =
      files1.countP (fun kv => !hasKey files2 kv.1 && (kv.1 == n)) :=
    countP_congr_fun (fun kv => Bool.and_comm _ _) files1
  have hcom : files1.countP (fun kv => (kv.1 == n) && hasKey files2 kv.1) =
      files1.countP (fun kv => hasKey files2 kv.1 && (kv.1 == n)) :=
    countP_congr_fun (fun kv => Bool.and_comm _ _) files1
  have hone := countP_key_eq_one files1 h1 n hn
  omega

/-! ## The merge step of strategy B and the partition claim C1 -/

lemma countP_beq_eq_one (l : List (List Char)) :
    l.Nodup → ∀ n ∈ l, l.countP (fun x => x == n) = 1 := by
  induction l with
  | nil => intro _ n hn; simp at hn
  | cons a l ih =>
    intro h n hn
    rw [List.nodup_cons] at h
    rw [List.countP_cons]
    rcases List.mem_cons.mp hn with heq | htail
    · have hz : l.countP (fun x => x == n) = 0 := by
        rw [List.countP_eq_zero]
        intro b hb
        simp only [beq_iff_eq]
        intro hbn
        exact h.1 (heq ▸ hbn ▸ hb)
      rw [hz]
      simp [heq]
    · have hna : ¬(a == n) = true := by
        simp only [beq_iff_eq]
        intro he
        exact h.1 (he ▸ htail)
      rw [ih h.2 n htail]
      simp [hna]

lemma countP_proj_beq {α} (g : α → List Char) (M : List α) (n : List Char) :
    M.countP (fun e => g e == n) = (M.map g).countP (fun x => x == n) :=
  (List.countP_map (fun x => x == n) g M).symm

lemma merge_right_count (R : CompareResult) (M' : List RMEntry) (n : List Char) :
    rightOccurrences (mergeGitResults R M') n =
      (if n ∈ M'.map RMEntry.new_name then 0 else R.added.countP (fun f => f.name == n)) +
      R.modified.countP (fun e => e.name == n) +
      R.unchanged.countP (fun e => e.name == n) +
      R.renamed.countP (fun e => e.new_name == n) +
      (R.renamed_and_modified.countP (fun e => e.new_name == n) +
        M'.countP (fun e => e.new_name == n)) := by
  rw [rightOccurrences]
  have hadded : (mergeGitResults R M').added =
      M'.foldl (fun l itm => l.filter (fun f => f.name != itm.new_name)) R.added := rfl
  have hmod : (mergeGitResults R M').modified = R.modified := rfl
  have hunch : (mergeGitResults R M').unchanged = R.unchanged := rfl
  have hren : (mergeGitResults R M').renamed = R.renamed := rfl
  have hrm : (mergeGitResults R M').renamed_and_modified =
      R.renamed_and_modified ++ M' := rfl
  rw [hadded, hmod, hunch, hren, hrm, List.countP_append,
    foldl_filter_countP RMEntry.new_name FileRef.name M' R.added n]

lemma merge_left_count (R : CompareResult) (M' : List RMEntry) (n : List Char) :
    leftOccurrences (mergeGitResults R M') n =
      (if n ∈ M'.map RMEntry.old_name then 0 else R.deleted.countP (fun f => f.name == n)) +
      R.modified.countP (fun e => e.name == n) +
      R.unchanged.countP (fun e => e.name == n) +
      R.renamed.countP (fun e => e.old_name == n) +
      (R.renamed_and_modified.countP (fun e => e.old_name == n) +
        M'.countP (fun e => e.old_name == n)) := by
  rw [leftOccurrences]
  have hdel : (mergeGitResults R M').deleted =
      M'.foldl (fun l itm => l.filter (fun f => f.name != itm.old_name)) R.deleted := rfl
  have hmod : (mergeGitResults R M').modified = R.modified := rfl
  have hunch : (mergeGitResults R M').unchanged = R.unchanged := rfl
  have hren : (mergeGitResults R M').renamed = R.renamed := rfl
  have hrm : (mergeGitResults R M').renamed_and_modified =
      R.renamed_and_modified ++ M' := rfl
  rw [hdel, hmod, hunch, hren, hrm, List.countP_append,
    foldl_filter_countP RMEntry.old_name FileRef.name M' R.deleted n]

/-! ## Claim C1: partition completeness -/

/-- C1 is false as stated: its category sets omit `Renamed`.  On two
single-file trees with byte-identical content under different names,
strategy A classifies the pair as `Renamed`, so the right-tree path
`new.xlsx` appears in none of the four categories the claim lists
(`Added`, `Modified.new`, `RenamedModified.new`, `Unchanged.new`). -/
theorem C1_counterexample :
    "new.xlsx".toList ∈
      ([("new.xlsx".toList, "p2".toList)].map Prod.fst) ∧
    rightOccurrencesStated
      (compare_directories fsHash1 [("old.xlsx".toList, "p1".toList)]
        [("new.xlsx".toList, "p2".toList)]) "new.xlsx".toList = 0 := by
  constructor
  · decide
  · decide

/-- C1 amended: with `Renamed` added to both category sets, the partition
holds.  Under strategy A it holds for any trees with the dict key property;
under strategy B it additionally requires the external tool contract: the
accepted entries pair distinct old names and distinct new names that are
still present in the Deleted and Added sets after strategy A. -/
theorem C1_amended_partition (fs : FileSystem)
    (files1 files2 : List (List Char × List Char)) (gitAvailable : Bool)
    (norm : List Char → Option (List Char)) (extract1 extract2 : List Char → List Char)
    (stdout : List Char)
    (h1 : (files1.map Prod.fst).Nodup) (h2 : (files2.map Prod.fst).Nodup)
    (hMnew : ((detect_moved_and_modified_files_no_index norm extract1 extract2 stdout).map
      RenameEntry.new_name).Nodup)
    (hMold : ((detect_moved_and_modified_files_no_index norm extract1 extract2 stdout).map
      RenameEntry.old_name).Nodup)
    (hMin : ∀ m ∈ detect_moved_and_modified_files_no_index norm extract1 extract2 stdout,
      m.new_name ∈ (compare_directories fs files1 files2).added.map FileRef.name ∧
      m.old_name ∈ (compare_directories fs files1 files2).deleted.map FileRef.name) :
    (∀ n ∈ files2.map Prod.fst,
      rightOccurrences (compare_directories fs files1 files2) n = 1 ∧
      rightOccurrences (compare_directories_with_git_no_index fs files1 files2 gitAvailable
        norm extract1 extract2 stdout) n = 1) ∧
    (∀ n ∈ files1.map Prod.fst,
      leftOccurrences (compare_directories fs files1 files2) n = 1 ∧
      leftOccurrences (compare_directories_with_git_no_index fs files1 files2 gitAvailable
        norm extract1 extract2 stdout) n = 1) := by
  have hA : ∀ n ∈ files2.map Prod.fst,
      rightOccurrences (compare_directories fs files1 files2) n = 1 := by
    intro n hn
    rw [compare_directories,
      (detect_renamed_files_counts fs (preResult fs files1 files2) n).1]
    exact right_initial_partition fs files1 files2 h1 h2 n hn
  have hAL : ∀ n ∈ files1.map Prod.fst,
      leftOccurrences (compare_directories fs files1 files2) n = 1 := by
    intro n hn
    rw [compare_directories,
      (detect_renamed_files_counts fs (preResult fs files1 files2) n).2]
    exact left_initial_partition fs files1 files2 h1 n hn
  cases gitAvailable with
  | false =>
    have hsame : compare_directories_with_git_no_index fs files1 files2 false
        norm extract1 extract2 stdout = compare_directories fs files1 files2 := rfl
    rw [hsame]
    exact ⟨fun n hn => ⟨hA n hn, hA n hn⟩, fun n hn => ⟨hAL n hn, hAL n hn⟩⟩
  | true =>
    set M := detect_moved_and_modified_files_no_index norm extract1 extract2 stdout with hM
    set R := compare_directories fs files1 files2 with hR
    have hgit : compare_directories_with_git_no_index fs files1 files2 true
        norm extract1 extract2 stdout = mergeGitResults R (M.map (enrichEntry fs)) := rfl
    have hnames_new : (M.map (enrichEntry fs)).map RMEntry.new_name =
        M.map RenameEntry.new_name := by
      rw [List.map_map]; rfl
    have hnames_old : (M.map (enrichEntry fs)).map RMEntry.old_name =
        M.map RenameEntry.old_name := by
      rw [List.map_map]; rfl
    have hcnt_new : ∀ n, (M.map (enrichEntry fs)).countP (fun e => e.new_name == n) =
        M.countP (fun e => e.new_name == n) := by
      intro n
      rw [List.countP_map]; rfl
    have hcnt_old : ∀ n, (M.map (enrichEntry fs)).countP (fun e => e.old_name == n) =
        M.countP (fun e => e.old_name == n) := by
      intro n
      rw [List.countP_map]; rfl
    constructor
    · intro n hn
      refine ⟨hA n hn, ?_⟩
      have hpart := hA n hn
      rw [rightOccurrences] at hpart
      rw [hgit, merge_right_count, hnames_new, hcnt_new]
      by_cases hmem : n ∈ M.map RenameEntry.new_name
      · rw [if_pos hmem]
        obtain ⟨m, hm, rfl⟩ := List.mem_map.mp hmem
        have hin := (hMin m hm).1
        have hpos : 0 < R.added.countP (fun f => f.name == m.new_name) := by
          rw [List.countP_pos_iff]
          obtain ⟨f, hf, he⟩ := List.mem_map.mp hin
          exact ⟨f, hf, by simp [he]⟩
        have hone : M.countP (fun e => e.new_name == m.new_name) = 1 := by
          rw [countP_proj_beq RenameEntry.new_name]
          exact countP_beq_eq_one _ hMnew _ hmem
        rw [hone]
        omega
      · rw [if_neg hmem]
        have hz : M.countP (fun e => e.new_name == n) = 0 := by
          rw [List.countP_eq_zero]
          intro e he
          simp only [beq_iff_eq]
          intro hen
          exact hmem (hen ▸ List.mem_map_of_mem RenameEntry.new_name he)
        rw [hz]
        omega
    · intro n hn
      refine ⟨hAL n hn, ?_⟩
      have hpart := hAL n hn
      rw [leftOccurrences] at hpart
      rw [hgit, merge_left_count, hnames_old, hcnt_old]
      by_cases hmem : n ∈ M.map RenameEntry.old_name
      · rw [if_pos hmem]
        obtain ⟨m, hm, rfl⟩ := List.mem_map.mp hmem
        have hin := (hMin m hm).2
        have hpos : 0 < R.deleted.countP (fun f => f.name == m.old_name) := by
          rw [List.countP_pos_iff]
          obtain ⟨f, hf, he⟩ := List.mem_map.mp hin
          exact ⟨f, hf, by simp [he]⟩
        have hone : M.countP (fun e => e.old_name == m.old_name) = 1 := by
          rw [countP_proj_beq RenameEntry.old_name]
          exact countP_beq_eq_one _ hMold _ hmem
        rw [hone]
        omega
      · rw [if_neg hmem]
        have hz : M.countP (fun e => e.old_name == n) = 0 := by
          rw [List.countP_eq_zero]
          intro e he
          simp only [beq_iff_eq]
          intro hen
          exact hmem (hen ▸ List.mem_map_of_mem RenameEntry.old_name he)
        rw [hz]
        omega

/-- Concrete instantiation of `C1_amended_partition`: one deleted file, one
added file, one accepted external rename entry pairing them. -/
theorem C1_amended_partition_witness :
    (([("a.docx".toList, "pa".toList)].map Prod.fst).Nodup ∧
      ([("b.docx".toList, "pb".toList)].map Prod.fst).Nodup) ∧
    rightOccurrences
      (compare_directories fsTwo [("a.docx".toList, "pa".toList)]
        [("b.docx".toList, "pb".toList)]) "b.docx".toList = 1 ∧
    rightOccurrences
      (compare_directories_with_git_no_index fsTwo [("a.docx".toList, "pa".toList)]
        [("b.docx".toList, "pb".toList)] true some id id
        "R065\ta.docx\tb.docx".toList) "b.docx".toList = 1 ∧
    leftOccurrences
      (compare_directories fsTwo [("a.docx".toList, "pa".toList)]
        [("b.docx".toList, "pb".toList)]) "a.docx".toList = 1 ∧
    leftOccurrences
      (compare_directories_with_git_no_index fsTwo [("a.docx".toList, "pa".toList)]
        [("b.docx".toList, "pb".toList)] true some id id
        "R065\ta.docx\tb.docx".toList) "a.docx".toList = 1 :=
  have hmain := C1_amended_partition fsTwo [("a.docx".toList, "pa".toList)]
    [("b.docx".toList, "pb".toList)] true some id id "R065\ta.docx\tb.docx".toList
    (by decide) (by decide) (by decide) (by decide) (by decide)
  ⟨⟨by decide, by decide⟩,
   (hmain.1 "b.docx".toList (by decide)).1,
   (hmain.1 "b.docx".toList (by decide)).2,
   (hmain.2 "a.docx".toList (by decide)).1,
   (hmain.2 "a.docx".toList (by decide)).2⟩

/-! ## Claim C5: strategy A matching -/

/-- C5: strategy A pairs a deleted file with an added file only when their
`(fingerprint, byte-size, extension)` triples are all exactly equal (with a
readable size and a non-sentinel fingerprint on both sides); the matching is
the deterministic greedy scan embodied by `matchLoop`/`findFirstMatch`,
which accepts the first exact match among the not-yet-consumed added
records; and matching is injective in both directions: no added or deleted
file reference occurs in two produced pairs. -/
theorem C5_strategy_A_matching (fs : FileSystem) (deleted added : List FileRef) :
    (∀ pr ∈ (detectPairs fs deleted added).1,
      calculate_file_hash fs pr.old_path = calculate_file_hash fs pr.new_path ∧
      calculate_file_hash fs pr.old_path ≠ [] ∧
      fs.size pr.old_path = fs.size pr.new_path ∧ fs.size pr.old_path ≠ none ∧
      (pathSuffix pr.old_path).map asciiLower = (pathSuffix pr.new_path).map asciiLower ∧
      pairOldRef pr ∈ deleted ∧ pairNewRef pr ∈ added) ∧
    ((detectPairs fs deleted added).1.map pairOldRef).Nodup ∧
    ((detectPairs fs deleted added).1.map pairNewRef).Nodup ∧
    (∀ (d : FileInfo) (ai : List FileInfo) (remA : List FileRef) (a : FileInfo),
      findFirstMatch d ai remA = some a →
        a.file ∉ remA ∧ (d.hash = a.hash ∧ d.size = a.size ∧ d.ext = a.ext) ∧
        ∃ pre suf, ai = pre ++ a :: suf ∧
          ∀ a' ∈ pre, a'.file ∈ remA ∨
            ¬(d.hash = a'.hash ∧ d.size = a'.size ∧ d.ext = a'.ext)) := by
  obtain ⟨e2, e3, h4, hndA, hndD⟩ := detectPairs_spec fs deleted added
  refine ⟨?_, hndD, hndA, ?_⟩
  · intro pr hpr
    obtain ⟨d, hd, a, ha, rfl, hh, hs, he⟩ := h4 pr hpr
    obtain ⟨hdmem, hdsize, hdhash, hdne, hdext⟩ := buildFileInfo_mem hd
    obtain ⟨hamem, hasize, hahash, hane, haext⟩ := buildFileInfo_mem ha
    refine ⟨?_, ?_, ?_, ?_, ?_, hdmem, hamem⟩
    · show calculate_file_hash fs d.file.path = calculate_file_hash fs a.file.path
      rw [← hdhash, ← hahash, hh]
    · show calculate_file_hash fs d.file.path ≠ []
      rw [← hdhash]; exact hdne
    · show fs.size d.file.path = fs.size a.file.path
      rw [hdsize, hasize, hs]
    · show fs.size d.file.path ≠ none
      rw [hdsize]; exact Option.some_ne_none _
    · show (pathSuffix d.file.path).map asciiLower = (pathSuffix a.file.path).map asciiLower
      rw [← hdext, ← haext, he]
  · intro d ai remA a h
    obtain ⟨_, h1, h2, h3⟩ := findFirstMatch_some h
    exact ⟨h1, h2, h3⟩

/-- Concrete instantiation of `C5_strategy_A_matching`: a deleted and an
added file with identical digest, size and extension are paired, and
`findFirstMatch` returns the first unconsumed exact match. -/
theorem C5_strategy_A_matching_witness :
    (RenamedPair.mk "a.xlsx".toList "b.xlsx".toList "q1".toList "q2".toList ∈
      (detectPairs fsHash1 [⟨"a.xlsx".toList, "q1".toList⟩]
        [⟨"b.xlsx".toList, "q2".toList⟩]).1 ∧
      calculate_file_hash fsHash1 "q1".toList = calculate_file_hash fsHash1 "q2".toList) ∧
    (findFirstMatch ⟨⟨"a.xlsx".toList, "q1".toList⟩, 1, ['h'], ".xlsx".toList⟩
        [⟨⟨"b.xlsx".toList, "q2".toList⟩, 1, ['h'], ".xlsx".toList⟩] [] =
      some ⟨⟨"b.xlsx".toList, "q2".toList⟩, 1, ['h'], ".xlsx".toList⟩ ∧
      FileRef.mk "b.xlsx".toList "q2".toList ∉ ([] : List FileRef)) :=
  ⟨⟨by decide,
    ((C5_strategy_A_matching fsHash1 [⟨"a.xlsx".toList, "q1".toList⟩]
      [⟨"b.xlsx".toList, "q2".toList⟩]).1
      (RenamedPair.mk "a.xlsx".toList "b.xlsx".toList "q1".toList "q2".toList)
      (by decide)).1⟩,
   ⟨by decide,
    ((C5_strategy_A_matching fsHash1 [] []).2.2.2
      ⟨⟨"a.xlsx".toList, "q1".toList⟩, 1, ['h'], ".xlsx".toList⟩
      [⟨⟨"b.xlsx".toList, "q2".toList⟩, 1, ['h'], ".xlsx".toList⟩] []
      ⟨⟨"b.xlsx".toList, "q2".toList⟩, 1, ['h'], ".xlsx".toList⟩ (by decide)).1⟩⟩

/-! ## Claim C10: failed fingerprints never participate in strategy A -/

/-- C10: a file whose fingerprinting failed (empty-string sentinel hash) is
excluded from the candidate pools of `_detect_renamed_files` by the
`if file_hash:` guard, so it participates in no rename pair and survives in
the Added (resp. Deleted) list. -/
theorem C10_failed_hash_excluded (fs : FileSystem) (r : CompareResult) (f : FileRef) :
    (f ∈ r.added → calculate_file_hash fs f.path = [] →
      f ∈ (detect_renamed_files fs r).added ∧
      ∀ pr ∈ (detectPairs fs r.deleted r.added).1, pairNewRef pr ≠ f) ∧
    (f ∈ r.deleted → calculate_file_hash fs f.path = [] →
      f ∈ (detect_renamed_files fs r).deleted ∧
      ∀ pr ∈ (detectPairs fs r.deleted r.added).1, pairOldRef pr ≠ f) := by
  obtain ⟨e2, e3, h4, hndA, hndD⟩ := detectPairs_spec fs r.deleted r.added
  constructor
  · intro hmem hhash
    have hnot : ∀ pr ∈ (detectPairs fs r.deleted r.added).1, pairNewRef pr ≠ f := by
      intro pr hpr heq
      obtain ⟨d, hd, a, ha, rfl, _⟩ := h4 pr hpr
      have hainfo := buildFileInfo_mem ha
      have : a.file = f := heq
      rw [this] at hainfo
      exact hainfo.2.2.2.1 (hainfo.2.2.1 ▸ hhash)
    refine ⟨?_, hnot⟩
    rw [detect_renamed_files_added, e3]
    refine List.mem_diff_of_mem hmem ?_
    intro hf
    obtain ⟨pr, hpr, he⟩ := List.mem_map.mp hf
    exact hnot pr hpr he
  · intro hmem hhash
    have hnot : ∀ pr ∈ (detectPairs fs r.deleted r.added).1, pairOldRef pr ≠ f := by
      intro pr hpr heq
      obtain ⟨d, hd, a, ha, rfl, _⟩ := h4 pr hpr
      have hdinfo := buildFileInfo_mem hd
      have : d.file = f := heq
      rw [this] at hdinfo
      exact hdinfo.2.2.2.1 (hdinfo.2.2.1 ▸ hhash)
    refine ⟨?_, hnot⟩
    rw [detect_renamed_files_deleted, e2]
    refine List.mem_diff_of_mem hmem ?_
    intro hf
    obtain ⟨pr, hpr, he⟩ := List.mem_map.mp hf
    exact hnot pr hpr he

/-- Concrete instantiation of `C10_failed_hash_excluded`: with every file
unreadable, an added and a deleted file both stay in place and no pair is
produced. -/
theorem C10_failed_hash_excluded_witness :
    (FileRef.mk "b.xlsx".toList "q2".toList ∈
        [FileRef.mk "b.xlsx".toList "q2".toList] ∧
      calculate_file_hash fsUnreadable "q2".toList = []) ∧
    FileRef.mk "b.xlsx".toList "q2".toList ∈
      (detect_renamed_files fsUnreadable
        { added := [⟨"b.xlsx".toList, "q2".toList⟩],
          deleted := [⟨"a.xlsx".toList, "q1".toList⟩], modified := [], renamed := [],
          unchanged := [], renamed_and_modified := [] }).added :=
  ⟨⟨by decide, by decide⟩,
   ((C10_failed_hash_excluded fsUnreadable
      { added := [⟨"b.xlsx".toList, "q2".toList⟩],
        deleted := [⟨"a.xlsx".toList, "q1".toList⟩], modified := [], renamed := [],
        unchanged := [], renamed_and_modified := [] }
      (FileRef.mk "b.xlsx".toList "q2".toList)).1 (by decide) (by decide)).1⟩

/-! ## Claim C2: the sentinel fingerprint -/

lemma compare_directories_modified (fs : FileSystem)
    (files1 files2 : List (List Char × List Char)) :
    (compare_directories fs files1 files2).modified = modifiedList fs files1 files2 := rfl

lemma compare_directories_unchanged (fs : FileSystem)
    (files1 files2 : List (List Char × List Char)) :
    (compare_directories fs files1 files2).unchanged = unchangedList fs files1 files2 := rfl

/-- A common path is classified `modified` exactly when the two hashes
differ, and `unchanged` exactly when they agree. -/
lemma common_classification (fs : FileSystem)
    (files1 files2 : List (List Char × List Char))
    (h1 : (files1.map Prod.fst).Nodup) {n p1 p2 : List Char}
    (hg1 : dictGet files1 n = some p1) (hg2 : dictGet files2 n = some p2) :
    (n ∈ (modifiedList fs files1 files2).map ModifiedEntry.name ↔
      calculate_file_hash fs p1 ≠ calculate_file_hash fs p2) ∧
    (n ∈ (unchangedList fs files1 files2).map UnchangedEntry.name ↔
      calculate_file_hash fs p1 = calculate_file_hash fs p2) := by
  have hmem1 : (n, p1) ∈ files1 := dictGet_some_mem hg1
  have hk2 : hasKey files2 n = true := dictGet_some_hasKey hg2
  have huniq : ∀ kv ∈ files1, kv.1 = n → kv.2 = p1 := by
    intro kv hkv he
    have hkv' : (n, kv.2) ∈ files1 := by
      rw [← he, Prod.mk.eta]
      exact hkv
    exact nodup_keys_eq_val h1 hkv' hmem1
  have hdiff : ∀ kv ∈ files1, kv.1 = n →
      (hashesDiffer fs files2 kv ↔
        calculate_file_hash fs p1 ≠ calculate_file_hash fs p2) := by
    intro kv hkv he
    have hp1 := huniq kv hkv he
    rw [hashesDiffer, he, hp1, hg2]
    simp
  constructor
  · constructor
    · intro hm
      obtain ⟨e, he, hname⟩ := List.mem_map.mp hm
      rw [modifiedList, List.mem_filterMap] at he
      obtain ⟨kv, hkv, heq⟩ := he
      rw [commonFiles, List.mem_filter] at hkv
      by_cases hd : hashesDiffer fs files2 kv
      · rw [if_pos hd] at heq
        rw [Option.some_inj] at heq
        subst heq
        have hkvn : kv.1 = n := hname
        exact (hdiff kv hkv.1 hkvn).mp hd
      · rw [if_neg hd] at heq
        exact absurd heq (by simp)
    · intro hne
      apply List.mem_map.mpr
      refine ⟨mkModifiedEntry fs n p1 ((dictGet files2 n).getD []), ?_, rfl⟩
      rw [modifiedList, List.mem_filterMap]
      refine ⟨(n, p1), ?_, ?_⟩
      · rw [commonFiles, List.mem_filter]
        exact ⟨hmem1, hk2⟩
      · rw [if_pos ((hdiff (n, p1) hmem1 rfl).mpr hne)]
  · constructor
    · intro hm
      obtain ⟨e, he, hname⟩ := List.mem_map.mp hm
      rw [unchangedList, List.mem_filterMap] at he
      obtain ⟨kv, hkv, heq⟩ := he
      rw [commonFiles, List.mem_filter] at hkv
      by_cases hd : hashesDiffer fs files2 kv
      · rw [if_pos hd] at heq
        exact absurd heq (by simp)
      · rw [if_neg hd] at heq
        rw [Option.some_inj] at heq
        subst heq
        have hkvn : kv.1 = n := hname
        by_contra hne
        exact hd ((hdiff kv hkv.1 hkvn).mpr hne)
    · intro heqh
      apply List.mem_map.mpr
      refine ⟨UnchangedEntry.mk n p1 ((dictGet files2 n).getD []), ?_, rfl⟩
      rw [unchangedList, List.mem_filterMap]
      refine ⟨(n, p1), ?_, ?_⟩
      · rw [commonFiles, List.mem_filter]
        exact ⟨hmem1, hk2⟩
      · rw [if_neg (fun hd => (hdiff (n, p1) hmem1 rfl).mp hd heqh)]

/-- C2 is false on the code: `calculate_file_hash` returns the same
empty-string sentinel for every unreadable file, so two different
unreadable files have equal fingerprints, and a common path whose two sides
are both unreadable is classified `Unchanged`. -/
theorem C2_counterexample :
    "p1".toList ≠ "p2".toList ∧
    fsUnreadable.digest "p1".toList = none ∧
    fsUnreadable.digest "p2".toList = none ∧
    calculate_file_hash fsUnreadable "p1".toList =
      calculate_file_hash fsUnreadable "p2".toList ∧
    (compare_directories fsUnreadable [("r.docx".toList, "p1".toList)]
        [("r.docx".toList, "p2".toList)]).unchanged.map UnchangedEntry.name =
      ["r.docx".toList] := by
  refine ⟨by decide, rfl, rfl, rfl, by decide⟩

/-- C2 amended: an unreadable file receives the empty-string sentinel
fingerprint, which never equals any valid digest, so a common path with
exactly one unreadable side is classified `Modified` and never `Unchanged`;
but the sentinel is the same for every unreadable file, and a common path
with both sides unreadable is classified `Unchanged`. -/
theorem C2_amended_sentinel (fs : FileSystem)
    (hvalid : ∀ p d, fs.digest p = some d → d ≠ []) :
    (∀ p, fs.digest p = none → calculate_file_hash fs p = []) ∧
    (∀ p q, fs.digest p = none → fs.digest q = none →
      calculate_file_hash fs p = calculate_file_hash fs q) ∧
    (∀ p q, fs.digest p = none → fs.digest q ≠ none →
      calculate_file_hash fs p ≠ calculate_file_hash fs q) ∧
    (∀ (files1 files2 : List (List Char × List Char)) (n p1 p2 : List Char),
      (files1.map Prod.fst).Nodup →
      dictGet files1 n = some p1 → dictGet files2 n = some p2 →
      ((fs.digest p1 = none ∧ fs.digest p2 ≠ none) ∨
        (fs.digest p1 ≠ none ∧ fs.digest p2 = none) →
        n ∈ (compare_directories fs files1 files2).modified.map ModifiedEntry.name ∧
        n ∉ (compare_directories fs files1 files2).unchanged.map UnchangedEntry.name) ∧
      (fs.digest p1 = none → fs.digest p2 = none →
        n ∈ (compare_directories fs files1 files2).unchanged.map UnchangedEntry.name)) := by
  have hnone : ∀ p, fs.digest p = none → calculate_file_hash fs p = [] := by
    intro p h
    rw [calculate_file_hash, h]
    rfl
  have hsome : ∀ p, fs.digest p ≠ none → calculate_file_hash fs p ≠ [] := by
    intro p h
    obtain ⟨d, hd⟩ := Option.ne_none_iff_exists'.mp h
    rw [calculate_file_hash, hd]
    exact hvalid p d hd
  have hneq : ∀ p q, fs.digest p = none → fs.digest q ≠ none →
      calculate_file_hash fs p ≠ calculate_file_hash fs q := by
    intro p q hp hq he
    exact hsome q hq (he ▸ hnone p hp)
  refine ⟨hnone, ?_, hneq, ?_⟩
  · intro p q hp hq
    rw [hnone p hp, hnone q hq]
  · intro files1 files2 n p1 p2 h1 hg1 hg2
    obtain ⟨hmodiff, hunchiff⟩ := common_classification fs files1 files2 h1 hg1 hg2
    rw [compare_directories_modified, compare_directories_unchanged]
    constructor
    · intro hcase
      have hne : calculate_file_hash fs p1 ≠ calculate_file_hash fs p2 := by
        rcases hcase with ⟨hp1, hp2⟩ | ⟨hp1, hp2⟩
        · exact hneq p1 p2 hp1 hp2
        · exact fun he => hneq p2 p1 hp2 hp1 he.symm
      exact ⟨hmodiff.mpr hne, fun hm => hne (hunchiff.mp hm)⟩
    · intro hp1 hp2
      exact hunchiff.mpr (by rw [hnone p1 hp1, hnone p2 hp2])

/-- Concrete instantiation of `C2_amended_sentinel`: with `p1` unreadable
and `p2` readable, the common path `r.docx` is Modified and not Unchanged;
with both sides unreadable it is Unchanged. -/
theorem C2_amended_sentinel_witness :
    calculate_file_hash fsMixed "p1".toList = [] ∧
    calculate_file_hash fsUnreadable "q1".toList =
      calculate_file_hash fsUnreadable "q2".toList ∧
    calculate_file_hash fsMixed "p1".toList ≠ calculate_file_hash fsMixed "p2".toList ∧
    "r.docx".toList ∈
      ((compare_directories fsMixed [("r.docx".toList, "p1".toList)]
        [("r.docx".toList, "p2".toList)]).modified.map ModifiedEntry.name) ∧
    "r.docx".toList ∉
      ((compare_directories fsMixed [("r.docx".toList, "p1".toList)]
        [("r.docx".toList, "p2".toList)]).unchanged.map UnchangedEntry.name) ∧
    "r.docx".toList ∈
      ((compare_directories fsUnreadable [("r.docx".toList, "q1".toList)]
        [("r.docx".toList, "q2".toList)]).unchanged.map UnchangedEntry.name) :=
  have hvalidM : ∀ p d, fsMixed.digest p = some d → d ≠ [] := by
    intro p d h
    simp only [fsMixed] at h
    split at h
    · exact absurd h (by simp)
    · rw [Option.some_inj] at h
      rw [← h]
      decide
  have hvalidU : ∀ p d, fsUnreadable.digest p = some d → d ≠ [] := by
    intro p d h
    simp [fsUnreadable] at h
  have hA := C2_amended_sentinel fsMixed hvalidM
  have hU := C2_amended_sentinel fsUnreadable hvalidU
  have hcaseA := (hA.2.2.2 [("r.docx".toList, "p1".toList)] [("r.docx".toList, "p2".toList)]
    "r.docx".toList "p1".toList "p2".toList (by decide) (by decide) (by decide)).1
    (Or.inl ⟨by decide, by decide⟩)
  ⟨hA.1 "p1".toList (by decide),
   hU.2.1 "q1".toList "q2".toList (by decide) (by decide),
   hA.2.2.1 "p1".toList "p2".toList (by decide) (by decide),
   hcaseA.1, hcaseA.2,
   (hU.2.2.2 [("r.docx".toList, "q1".toList)] [("r.docx".toList, "q2".toList)]
     "r.docx".toList "q1".toList "q2".toList (by decide) (by decide) (by decide)).2
     (by decide) (by decide)⟩

/-! ## Claim C4: strategy B never classifies an entry as Renamed -/

/-- C4 is false on the code: an accepted entry with similarity exactly
`100` (possible only through the marker-name special case; plain `R100`
entries are dropped entirely) is placed in `renamed_and_modified`, not in
`renamed` — strategy B adds nothing to the `Renamed` category. -/
theorem C4_counterexample :
    (detect_moved_and_modified_files_no_index some id id
        "R100\t内容・ファイル名差分a.docx\t内容・ファイル名差分b.docx".toList).map
      RenameEntry.similarity = [100] ∧
    (detect_moved_and_modified_files_no_index some id id
        "R100\ta.docx\tb.docx".toList) = [] ∧
    (compare_directories_with_git_no_index fsTwo
        [("内容・ファイル名差分a.docx".toList, "pa".toList)]
        [("内容・ファイル名差分b.docx".toList, "pb".toList)] true some id id
        "R100\t内容・ファイル名差分a.docx\t内容・ファイル名差分b.docx".toList).renamed =
      [] ∧
    (compare_directories_with_git_no_index fsTwo
        [("内容・ファイル名差分a.docx".toList, "pa".toList)]
        [("内容・ファイル名差分b.docx".toList, "pb".toList)] true some id id
        "R100\t内容・ファイル名差分a.docx\t内容・ファイル名差分b.docx".toList
        ).renamed_and_modified.map RMEntry.similarity = [100] := by
  refine ⟨by decide, by decide, by decide, by decide⟩

/-- C4 amended: strategy B classifies no accepted entry as `Renamed` — the
`renamed` category is exactly what strategy A produced.  Every accepted
entry, including the similarity-`100` entries admitted by the marker-name
special case (plain similarity-`100` entries are skipped), is classified
`RenamedModified`, enriched with positional diff lines and a
text-similarity score computed from the extracted texts of both sides. -/
theorem C4_amended_strategy_B_classification (fs : FileSystem)
    (files1 files2 : List (List Char × List Char))
    (norm : List Char → Option (List Char)) (extract1 extract2 : List Char → List Char)
    (stdout : List Char) :
    (compare_directories_with_git_no_index fs files1 files2 true norm extract1 extract2
      stdout).renamed = (compare_directories fs files1 files2).renamed ∧
    (compare_directories_with_git_no_index fs files1 files2 true norm extract1 extract2
      stdout).renamed_and_modified =
      (detect_moved_and_modified_files_no_index norm extract1 extract2 stdout).map
        (enrichEntry fs) ∧
    (∀ e ∈ detect_moved_and_modified_files_no_index norm extract1 extract2 stdout,
      (100 ≤ e.similarity →
        markerChars <:+: e.old_name ∧ markerChars <:+: e.new_name) ∧
      (enrichEntry fs e).similarity = e.similarity ∧
      (enrichEntry fs e).diff_lines =
        diff_text_lines (fs.textOf e.old_path) (fs.textOf e.new_path) ∧
      (enrichEntry fs e).text_similarity =
        calculate_text_similarity (fs.textOf e.old_path) (fs.textOf e.new_path)) := by
  refine ⟨rfl, rfl, ?_⟩
  intro e he
  rw [detect_moved_and_modified_files_no_index, detect_lines, List.mem_filterMap] at he
  obtain ⟨line, _, hline⟩ := he
  obtain ⟨_, _, old_path, new_path, _, _, _, _, _, _, hacc, hentry⟩ :=
    (processGitLine_some_iff norm extract1 extract2 line e).mp hline
  refine ⟨?_, rfl, rfl, rfl⟩
  intro hge
  have hsim : e.similarity =
      statusSimilarity (stripChars ((line.splitOn '\t').getD 0 [])) := by
    rw [hentry]
  rcases hacc with hlt | hmark
  · omega
  · have ho : e.old_name = extract1 old_path := by rw [hentry]
    have hn : e.new_name = extract2 new_path := by rw [hentry]
    rw [ho, hn]
    exact ⟨hmark.1, hmark.2⟩

/-- Concrete instantiation of `C4_amended_strategy_B_classification` at the
marker-name `R100` scenario. -/
theorem C4_amended_strategy_B_classification_witness :
    (compare_directories_with_git_no_index fsTwo
        [("内容・ファイル名差分a.docx".toList, "pa".toList)]
        [("内容・ファイル名差分b.docx".toList, "pb".toList)] true some id id
        "R100\t内容・ファイル名差分a.docx\t内容・ファイル名差分b.docx".toList).renamed =
      (compare_directories fsTwo
        [("内容・ファイル名差分a.docx".toList, "pa".toList)]
        [("内容・ファイル名差分b.docx".toList, "pb".toList)]).renamed ∧
    (RenameEntry.mk "内容・ファイル名差分a.docx".toList "内容・ファイル名差分b.docx".toList
        "内容・ファイル名差分a.docx".toList "内容・ファイル名差分b.docx".toList 100 ∈
      detect_moved_and_modified_files_no_index some id id
        "R100\t内容・ファイル名差分a.docx\t内容・ファイル名差分b.docx".toList) ∧
    (100 ≤ (100 : ℕ) ∧
      markerChars <:+: "内容・ファイル名差分a.docx".toList ∧
      markerChars <:+: "内容・ファイル名差分b.docx".toList) :=
  have hmain := C4_amended_strategy_B_classification fsTwo
    [("内容・ファイル名差分a.docx".toList, "pa".toList)]
    [("内容・ファイル名差分b.docx".toList, "pb".toList)] some id id
    "R100\t内容・ファイル名差分a.docx\t内容・ファイル名差分b.docx".toList
  have hfact := (hmain.2.2
    (RenameEntry.mk "内容・ファイル名差分a.docx".toList "内容・ファイル名差分b.docx".toList
      "内容・ファイル名差分a.docx".toList "内容・ファイル名差分b.docx".toList 100)
    (by decide)).1 (by decide)
  ⟨hmain.1, by decide, le_refl 100, hfact.1, hfact.2⟩

end CompareDiff
